import Mathlib

/-!
Verification development for the SpaceBridge migration orchestrator.

The Go sources are embedded shallowly: records mirror the structs of
internal/models, pure functions mirror the bodies of the functions named in
the comments, the Go type `map[string]T` (insert in iteration order, last
insert wins) is mirrored by `golookup` over the same list, and Go sets of
type `map[string]bool`
sets are mirrored by `List String` queried with `contains`.  External
network calls are mirrored by oracle records of `Except`-valued functions,
and the calls a pipeline makes are recorded in an explicit event trace.
-/

deriving instance DecidableEq for Except

namespace SpaceBridge

/-- Space record, from internal/models (space model). -/
structure Space where
  id : String
  name : String
  description : String
  parentSpace : Option String
  inheritEntities : Bool
  labels : List String
deriving DecidableEq, Repr

/-- Hook lists configured on a stack or context, from the stack model. -/
structure Hooks where
  afterApply : List String
  beforeApply : List String
  afterInit : List String
  beforeInit : List String
  afterPlan : List String
  beforePlan : List String
  afterPerform : List String
  beforePerform : List String
  afterDestroy : List String
  beforeDestroy : List String
  afterRun : List String
deriving DecidableEq, Repr

/-- The all-empty hooks value (Go zero value of the Hooks struct). -/
def emptyHooks : Hooks :=
  ⟨[], [], [], [], [], [], [], [], [], [], []⟩

/-- A context attached to a stack, from the stack model. -/
structure ContextAttachment where
  id : String
  contextId : String
  priority : Int
deriving DecidableEq, Repr

/-- A policy attached to a stack, from the stack model. -/
structure PolicyAttachment where
  id : String
  policyId : String
deriving DecidableEq, Repr

/-- A dependency between stacks, from the stack model. -/
structure StackDependency where
  id : String
  dependsOnStackId : String
deriving DecidableEq, Repr

/-- An AWS integration attached to a stack, from internal/models/integration.go. -/
structure AWSIntegrationAttachment where
  integrationId : String
  read : Bool
  write : Bool
deriving DecidableEq, Repr

/-- An Azure integration attached to a stack, from internal/models/integration.go. -/
structure AzureIntegrationAttachment where
  integrationId : String
  read : Bool
  write : Bool
  subscriptionId : Option String
deriving DecidableEq, Repr

/-- Stack record, from the stack model file that carries the `workflowTool`
and `terragruntVersion` fields (the variant matching the wire query in
internal/client/client.go).  The two integration-attachment lists are the
fields that internal/discovery/discovery.go appends to; their declaration is
absent from the stack files under src.  Modelled from the spec: §3 describes
per-integration attachment records on a Stack, so the two lists are included
here with the element types of internal/models/integration.go. -/
structure Stack where
  id : String
  name : String
  description : Option String
  space : String
  branch : String
  repository : String
  namespaceField : String
  projectRoot : Option String
  provider : String
  vendorType : String
  repositoryURL : Option String
  runnerImage : Option String
  terraformVersion : Option String
  terragruntVersion : Option String
  workflowTool : Option String
  administrative : Bool
  autodeploy : Bool
  autoretry : Bool
  localPreviewEnabled : Bool
  protectFromDeletion : Bool
  isDisabled : Bool
  managesStateFile : Bool
  externalStateAccessEnabled : Bool
  labels : List String
  additionalProjectGlobs : List String
  hooks : Hooks
  attachedContexts : List ContextAttachment
  attachedPolicies : List PolicyAttachment
  dependsOn : List StackDependency
  attachedAWSIntegrations : List AWSIntegrationAttachment
  attachedAzureIntegrations : List AzureIntegrationAttachment
deriving DecidableEq, Repr

/-- Stack.IsTerraform from the stack model: Terraform-family vendors. -/
def Stack.isTerraform (s : Stack) : Bool :=
  s.vendorType = "StackConfigVendorTerraform" ∨
  s.vendorType = "StackConfigVendorOpenTofu" ∨
  s.vendorType = "StackConfigVendorTerragrunt"

/-- A configuration element of a context, from the context model. -/
structure ConfigElement where
  id : String
  typeField : String
  value : String
  writeOnly : Bool
  description : String
deriving DecidableEq, Repr

/-- Context record, from the context model. -/
structure Context where
  id : String
  name : String
  description : Option String
  space : String
  labels : List String
  hooks : Hooks
  config : List ConfigElement
  createdAt : Int
  updatedAt : Int
deriving DecidableEq, Repr

/-- Policy record, from internal/models/policy.go. -/
structure Policy where
  id : String
  name : String
  description : Option String
  space : String
  typeField : String
  engineType : String
  body : String
  labels : List String
  createdAt : Int
  updatedAt : Int
deriving DecidableEq, Repr

/-- AWS integration record, from internal/models/integration.go. -/
structure AWSIntegration where
  id : String
  name : String
  roleArn : String
  durationSeconds : Int
  generateCredentialsInWorker : Bool
  externalId : Option String
  space : String
  labels : List String
deriving DecidableEq, Repr

/-- Azure integration record, from internal/models/integration.go. -/
structure AzureIntegration where
  id : String
  name : String
  tenantId : String
  defaultSubscriptionId : Option String
  applicationId : String
  displayName : String
  space : String
  labels : List String
deriving DecidableEq, Repr

/-- Manifest aggregate, from internal/discovery/discovery.go. -/
structure Manifest where
  sourceURL : String
  spaces : List Space
  «stacks» : List Stack
  contexts : List Context
  policies : List Policy
  awsIntegrations : List AWSIntegration
  azureIntegrations : List AzureIntegration
deriving DecidableEq, Repr

/-- Behaviour of `m := make(map[string]V); for _, x := range xs { m[key(x)] = x }`
followed by `m[k]`: the last element with the key wins. -/
def golookup {α : Type} (key : α → String) : List α → String → Option α
  | [], _ => none
  | x :: xs, k =>
    match golookup key xs k with
    | some r => some r
    | none => if key x = k then some x else none

/-- Lookup of a space by id, mirroring the `spaceMap`/`spaceByID` maps the
Go code builds from a space slice. -/
def spaceById (spaces : List Space) : String → Option Space :=
  fun k => golookup Space.id spaces k

/-- The space filter applied by the state commands (runStatePlan,
runStateEnableAccess, runStateMigrate): keep exactly the stacks whose owning
space id equals the resolved target id. -/
def filterStacksBySpace (sts : List Stack) (spaceID : String) : List Stack :=
  sts.foldl (fun acc st => if st.space = spaceID then acc ++ [st] else acc) []

/-! ### Raw state streaming (internal/client/client.go) -/

/-- The parts of an HTTP response the streaming helpers inspect. -/
structure HTTPResponse where
  status : Nat
  body : String
  contentLength : Int
deriving DecidableEq, Repr

/-- Boolean success test for an `Except` result. -/
def okB {ε α : Type} : Except ε α → Bool
  | .ok _ => true
  | .error _ => false

/-- StreamStateFromURL: the transport outcome for the GET is the input; a
response with status other than 200 is rejected, otherwise the body stream
and its content length are returned. -/
def streamStateFromURLModel (resp : Except String HTTPResponse) :
    Except String (String × Int) :=
  match resp with
  | .error e => .error ("failed to download state: " ++ e)
  | .ok r =>
    if r.status ≠ 200 then .error ("download returned status " ++ toString r.status)
    else .ok (r.body, r.contentLength)

/-- UploadStateToURL: the transport outcome for the PUT is the input; a
response status other than 200, 201 or 204 is rejected. -/
def uploadStateToURLModel (resp : Except String HTTPResponse) :
    Except String Unit :=
  match resp with
  | .error e => .error ("failed to upload state: " ++ e)
  | .ok r =>
    if r.status ≠ 200 ∧ r.status ≠ 201 ∧ r.status ≠ 204 then
      .error ("upload returned status " ++ toString r.status ++ ": " ++ r.body)
    else .ok ()

/-! ### State-migration classification (runStateMigrate) -/

/-- friendlyVendorType from the command layer. -/
def friendlyVendorType (vendorType : String) : String :=
  if vendorType = "StackConfigVendorTofu" then "Tofu"
  else if vendorType = "StackConfigVendorTerragrunt" then "Terragrunt"
  else if vendorType = "StackConfigVendorAnsible" then "Ansible"
  else if vendorType = "StackConfigVendorKubernetes" then "Kubernetes"
  else if vendorType = "StackConfigVendorCloudFormation" then "CloudFormation"
  else if vendorType = "StackConfigVendorPulumi" then "Pulumi"
  else vendorType

/-- The five mutually exclusive dispositions of a source stack in the
state-migration loop of runStateMigrate. -/
inductive StateMigrationDisposition where
  | skipSelfManaged
  | skipNonApplicableVendor
  | blockedNoExternalAccess
  | blockedNotInDestination
  | candidate (dest : Stack)
deriving DecidableEq, Repr

/-- The per-stack if/continue chain of runStateMigrate, as a function:
self-managed state first, then non-Terraform-family vendor, then disabled
external state access, then absence from the destination name map. -/
def classifyStack (destMap : String → Option Stack) (st : Stack) :
    StateMigrationDisposition :=
  if st.managesStateFile = false then .skipSelfManaged
  else if st.isTerraform = false then .skipNonApplicableVendor
  else if st.externalStateAccessEnabled = false then .blockedNoExternalAccess
  else
    match destMap st.name with
    | none => .blockedNotInDestination
    | some d => .candidate d

/-- A source stack paired with its destination stack (migrationCandidate). -/
structure MigrationCandidate where
  source : Stack
  dest : Stack
deriving DecidableEq, Repr

/-- The classification loop of runStateMigrate: partitions the source stacks
into candidates, skipped, not-in-destination and no-access lists, with the
same formatted labels the Go code appends. -/
def partitionStacks (destMap : String → Option Stack) (sts : List Stack) :
    List MigrationCandidate × List String × List String × List String :=
  sts.foldl
    (fun acc st =>
      let (cands, skipped, notInDest, noAccess) := acc
      match classifyStack destMap st with
      | .skipSelfManaged =>
        (cands, skipped ++ [st.name ++ " (self-managed state)"], notInDest, noAccess)
      | .skipNonApplicableVendor =>
        (cands, skipped ++ [st.name ++ " (" ++ friendlyVendorType st.vendorType ++ ")"],
          notInDest, noAccess)
      | .blockedNoExternalAccess =>
        (cands, skipped, notInDest, noAccess ++ [st.name])
      | .blockedNotInDestination =>
        (cands, skipped, notInDest ++ [st.name], noAccess)
      | .candidate d =>
        (cands ++ [⟨st, d⟩], skipped, notInDest, noAccess))
    ([], [], [], [])

/-! ### Transfer state machine (runStateMigrate migration loop) -/

/-- Result of GetStateUploadURL (client.StateUploadResult). -/
structure StateUploadResult where
  url : String
  objectID : String
deriving DecidableEq, Repr

/-- One remote call made by the migration loop, with its arguments. -/
inductive CallEvent where
  | getStateDownloadURL (stackId : String)
  | getStateUploadURL (stackId : String)
  | streamStateFromURL (url : String)
  | uploadStateToURL (url : String)
  | lockStack (stackId : String)
  | importManagedState (stackId : String) (objectId : String)
  | unlockStack (stackId : String)
deriving DecidableEq, Repr

/-- Oracle for the remote operations the migration loop performs: the
download-URL call on the source client; the upload-URL, lock, state-import
and unlock calls on the destination client; and the package-level streaming
helpers. -/
structure TransferOps where
  getStateDownloadURL : String → Except String String
  getStateUploadURL : String → Except String StateUploadResult
  streamStateFromURL : String → Except String (String × Int)
  uploadStateToURL : String → String → Int → Except String Unit
  lockStack : String → Except String Unit
  importManagedState : String → String → Except String Unit
  unlockStack : String → Except String Unit

/-- The per-candidate body of the migration loop: download URL, upload URL,
stream down, stream up, lock, import, unlock, with the exact early-exit
(`continue`) structure of the Go code.  Returns whether the candidate
succeeded together with the calls made on its behalf, in order.  The unlock
after a failed import is attempted with its result discarded; the final
failure of the final unlock does not change the outcome. -/
def runCandidate (ops : TransferOps) (c : MigrationCandidate) :
    Bool × List CallEvent :=
  let e1 := CallEvent.getStateDownloadURL c.source.id
  match ops.getStateDownloadURL c.source.id with
  | .error _ => (false, [e1])
  | .ok downloadURL =>
    let e2 := CallEvent.getStateUploadURL c.dest.id
    match ops.getStateUploadURL c.dest.id with
    | .error _ => (false, [e1, e2])
    | .ok uploadResult =>
      let e3 := CallEvent.streamStateFromURL downloadURL
      match ops.streamStateFromURL downloadURL with
      | .error _ => (false, [e1, e2, e3])
      | .ok rd =>
        let e4 := CallEvent.uploadStateToURL uploadResult.url
        match ops.uploadStateToURL uploadResult.url rd.1 rd.2 with
        | .error _ => (false, [e1, e2, e3, e4])
        | .ok _ =>
          let e5 := CallEvent.lockStack c.dest.id
          match ops.lockStack c.dest.id with
          | .error _ => (false, [e1, e2, e3, e4, e5])
          | .ok _ =>
            let e6 := CallEvent.importManagedState c.dest.id uploadResult.objectID
            let e7 := CallEvent.unlockStack c.dest.id
            match ops.importManagedState c.dest.id uploadResult.objectID with
            | .error _ => (false, [e1, e2, e3, e4, e5, e6, e7])
            | .ok _ => (true, [e1, e2, e3, e4, e5, e6, e7])

/-- The migration loop over all candidates: every candidate is attempted;
successes and failures are counted; traces are concatenated in order. -/
def runPipeline (ops : TransferOps) (cands : List MigrationCandidate) :
    Nat × Nat × List CallEvent :=
  cands.foldl
    (fun acc c =>
      let (succ, fail, tr) := acc
      let r := runCandidate ops c
      if r.1 then (succ + 1, fail, tr ++ r.2) else (succ, fail + 1, tr ++ r.2))
    (0, 0, [])

/-- The observable outcome of runStateMigrate. -/
structure MigrateOutcome where
  candidates : List MigrationCandidate
  skipped : List String
  notInDest : List String
  noAccess : List String
  succeeded : Nat
  failed : Nat
  migrateError : Option String
deriving DecidableEq, Repr

/-- runStateMigrate after stack discovery: optional space filtering by exact
owning-space id, destination name map, classification, the empty-candidates
early return, the dry-run early return, then the migration loop; the overall
error is non-nil iff the failure count is positive. -/
def runStateMigrateModel (dryRun : Bool) (ops : TransferOps)
    (sourceStacks destStacks : List Stack) (resolvedSpaceID : Option String) :
    MigrateOutcome × List CallEvent :=
  let filtered :=
    match resolvedSpaceID with
    | some id => filterStacksBySpace sourceStacks id
    | none => sourceStacks
  let destMap := fun n => golookup Stack.name destStacks n
  let p := partitionStacks destMap filtered
  let cands := p.1
  let skipped := p.2.1
  let notInDest := p.2.2.1
  let noAccess := p.2.2.2
  if cands.isEmpty then
    ({ candidates := cands, skipped := skipped, notInDest := notInDest,
       noAccess := noAccess, succeeded := 0, failed := 0, migrateError := none }, [])
  else if dryRun then
    ({ candidates := cands, skipped := skipped, notInDest := notInDest,
       noAccess := noAccess, succeeded := 0, failed := 0, migrateError := none }, [])
  else
    let r := runPipeline ops cands
    ({ candidates := cands, skipped := skipped, notInDest := notInDest,
       noAccess := noAccess, succeeded := r.1, failed := r.2.1,
       migrateError :=
         if r.2.1 > 0 then some (toString r.2.1 ++ " stacks failed to migrate")
         else none }, r.2.2)

/-! ### Discovery (internal/discovery/discovery.go DiscoverAll) -/

/-- Oracle for the per-collection discovery fetches.  Attachment fetches
return (stack id, attachment) associations (Go returns a map keyed by stack
id; only which pairs are present matters downstream). -/
structure DiscoveryOps where
  discoverSpaces : Except String (List Space)
  discoverContexts : Except String (List Context)
  discoverPolicies : Except String (List Policy)
  discoverStacks : Except String (List Stack)
  discoverAWSIntegrations : Except String (List AWSIntegration)
  discoverAzureIntegrations : Except String (List AzureIntegration)
  discoverAWSIntegrationAttachments :
    String → Except String (List (String × AWSIntegrationAttachment))
  discoverAzureIntegrationAttachments :
    String → Except String (List (String × AzureIntegrationAttachment))

/-- The stackID → slice-index map built once before merging attachments. -/
def stackIndexMap (sts : List Stack) : String → Option Nat :=
  fun k => (golookup (fun p => p.2.id) sts.enum k).map Prod.fst

/-- Merge the attachment associations of one integration into the stack list at
the indices recorded by `stackIndexMap`; associations whose stack id is not
in the map are dropped. -/
def applyAWSAttachments (idx : String → Option Nat)
    (atts : List (String × AWSIntegrationAttachment)) (sts : List Stack) :
    List Stack :=
  atts.foldl
    (fun ss p =>
      match idx p.1 with
      | some i =>
        match ss.get? i with
        | some st =>
          ss.set i { st with attachedAWSIntegrations := st.attachedAWSIntegrations ++ [p.2] }
        | none => ss
      | none => ss)
    sts

/-- Azure version of `applyAWSAttachments`. -/
def applyAzureAttachments (idx : String → Option Nat)
    (atts : List (String × AzureIntegrationAttachment)) (sts : List Stack) :
    List Stack :=
  atts.foldl
    (fun ss p =>
      match idx p.1 with
      | some i =>
        match ss.get? i with
        | some st =>
          ss.set i { st with attachedAzureIntegrations := st.attachedAzureIntegrations ++ [p.2] }
        | none => ss
      | none => ss)
    sts

/-- Fetch and merge attachments for every AWS integration in order, aborting
with the wrapped error of the first failing fetch. -/
def mergeAWSAttachments (ops : DiscoveryOps) (idx : String → Option Nat) :
    List AWSIntegration → List Stack → Except String (List Stack)
  | [], sts => .ok sts
  | i :: rest, sts =>
    match ops.discoverAWSIntegrationAttachments i.id with
    | .error e =>
      .error ("failed to discover AWS integration attachments for " ++ i.name ++ ": " ++ e)
    | .ok atts => mergeAWSAttachments ops idx rest (applyAWSAttachments idx atts sts)

/-- Fetch and merge attachments for every Azure integration in order,
aborting with the wrapped error of the first failing fetch. -/
def mergeAzureAttachments (ops : DiscoveryOps) (idx : String → Option Nat) :
    List AzureIntegration → List Stack → Except String (List Stack)
  | [], sts => .ok sts
  | i :: rest, sts =>
    match ops.discoverAzureIntegrationAttachments i.id with
    | .error e =>
      .error ("failed to discover Azure integration attachments for " ++ i.name ++ ": " ++ e)
    | .ok atts => mergeAzureAttachments ops idx rest (applyAzureAttachments idx atts sts)

/-- DiscoverAll: the six collection fetches in source order, each failure
wrapped with the name of the failing sub-fetch and aborting the build, then
the per-integration attachment fetches and merges.  An error result carries
no manifest. -/
def DiscoverAll (ops : DiscoveryOps) (sourceURL : String) : Except String Manifest :=
  match ops.discoverSpaces with
  | .error e => .error ("failed to discover spaces: " ++ e)
  | .ok sps =>
  match ops.discoverContexts with
  | .error e => .error ("failed to discover contexts: " ++ e)
  | .ok ctxs =>
  match ops.discoverPolicies with
  | .error e => .error ("failed to discover policies: " ++ e)
  | .ok pols =>
  match ops.discoverStacks with
  | .error e => .error ("failed to discover stacks: " ++ e)
  | .ok sts =>
  match ops.discoverAWSIntegrations with
  | .error e => .error ("failed to discover AWS integrations: " ++ e)
  | .ok awsInts =>
  match ops.discoverAzureIntegrations with
  | .error e => .error ("failed to discover Azure integrations: " ++ e)
  | .ok azureInts =>
  let idx := stackIndexMap sts
  match mergeAWSAttachments ops idx awsInts sts with
  | .error e => .error e
  | .ok sts1 =>
  match mergeAzureAttachments ops idx azureInts sts1 with
  | .error e => .error e
  | .ok sts2 =>
    .ok { sourceURL := sourceURL, spaces := sps, «stacks» := sts2, contexts := ctxs,
          policies := pols, awsIntegrations := awsInts, azureIntegrations := azureInts }

/-! ### Space filter token resolution (resolveSpaceFilter) -/

/-- The name-ID fallback of resolveSpaceFilter: the characters of the token are
scanned from the right (first argument is the reversed remainder, second the
suffix accumulated so far); at each hyphen the suffix after it is tested
against the space-id map, and the first hit — i.e. the hit at the rightmost
such hyphen — wins. -/
def hyphenScanAux (byId : String → Option Space) :
    List Char → List Char → Option Space
  | [], _ => none
  | c :: rest, suffix =>
    if c = '-' then
      match byId (String.mk suffix) with
      | some sp => some sp
      | none => hyphenScanAux byId rest (c :: suffix)
    else hyphenScanAux byId rest (c :: suffix)

/-- resolveSpaceFilter after the space fetch: exact id match first, then
first exact name match in slice order, then the name-ID hyphen fallback,
otherwise a lookup error. -/
def resolveSpaceFilterPure (spaces : List Space) (filter : String) :
    Except String (String × String) :=
  match spaceById spaces filter with
  | some sp => .ok (sp.id, sp.name)
  | none =>
    match spaces.find? (fun sp => sp.name = filter) with
    | some sp => .ok (sp.id, sp.name)
    | none =>
      match hyphenScanAux (spaceById spaces) filter.data.reverse [] with
      | some sp => .ok (sp.id, sp.name)
      | none => .error ("space not found: " ++ filter)

/-- The suffix strictly after the last hyphen of the token, scanning the
reversed character list; `none` when the token has no hyphen. -/
def lastHyphenSuffix : List Char → List Char → Option (List Char)
  | [], _ => none
  | c :: rest, suffix =>
    if c = '-' then some suffix else lastHyphenSuffix rest (c :: suffix)

/-- Modelled from the spec: rule (3) as the claim words it — find the last
hyphen of the token and test only the suffix after that one hyphen against
the known space ids; rules (1) and (2) as in the source. -/
def claimResolveSpaceFilter (spaces : List Space) (filter : String) :
    Except String (String × String) :=
  match spaceById spaces filter with
  | some sp => .ok (sp.id, sp.name)
  | none =>
    match spaces.find? (fun sp => sp.name = filter) with
    | some sp => .ok (sp.id, sp.name)
    | none =>
      match lastHyphenSuffix filter.data.reverse [] with
      | some suf =>
        match spaceById spaces (String.mk suf) with
        | some sp => .ok (sp.id, sp.name)
        | none => .error ("space not found: " ++ filter)
      | none => .error ("space not found: " ++ filter)

/-! ### Space-scoped manifest filter (filterManifestBySpace)

The Go walks up parent pointers with an unbounded loop; a cyclic parent
chain would make that loop diverge.  The embedding threads the multiset of
space ids not yet visited (`remaining`) together with a fuel equal to
`remaining.length + 1`, so the recursion is structural, agrees with the Go
loop step for step whenever that loop terminates, and truncates (flag
`false`) exactly when a node is revisited past its multiplicity. -/

/-- One ancestor walk: returns the visited spaces paired with their raw
parent pointers (the additions the Go loop makes to `includedSpaces` are the
first components; the target walk additionally records each parent pointer
in `ancestorSpaces`), plus a flag that is `true` iff the walk ended at one
of the stopping conditions of the Go loop itself: reaching the empty or
root id, a failed snapshot lookup (Go breaks there, so a dangling parent
pointer flags `true`), or a space with no parent.  The flag is `false`
only when a node still present in the snapshot is revisited past its
multiplicity in `remaining` — a parent cycle, on which the Go loop would
never terminate and the embedding truncates. -/
def walkUpF (sm : String → Option Space) :
    Nat → List String → String → List (String × Option String) × Bool
  | 0, _, _ => ([], false)
  | fuel + 1, remaining, current =>
    if current = "" ∨ current = "root" then ([], true)
    else
      match sm current with
      | none => ([], true)
      | some sp =>
        if current ∈ remaining then
          match sp.parentSpace with
          | none => ([(current, none)], true)
          | some p =>
            let r := walkUpF sm fuel (remaining.erase current) p
            ((current, some p) :: r.1, r.2)
        else ([], false)

/-- The body of one iteration of the child-space search: add the id of the space
when its parent is included and it is not yet. -/
def descStep (inc : List String) (sp : Space) : List String :=
  match sp.parentSpace with
  | some p => if p ∈ inc ∧ sp.id ∉ inc then sp.id :: inc else inc
  | none => inc

/-- One pass of the recursive child-space search: every space whose parent
is already included and which is not yet included itself is added, scanning
the space slice in order and seeing additions made earlier in the same
pass. -/
def descPass (spaces : List Space) (included : List String) : List String :=
  spaces.foldl descStep included

/-- The `for changed` loop around `descPass`: iterate until a pass adds
nothing (passes only prepend, so "no change" is "same length").  The fuel
`spaces.length + 1` is enough to reach the fixed point, since each changing
pass includes at least one further space. -/
def descFix (spaces : List Space) : Nat → List String → List String
  | 0, inc => inc
  | fuel + 1, inc =>
    let inc2 := descPass spaces inc
    if inc2.length = inc.length then inc else descFix spaces fuel inc2

/-- The ancestor walk of filterManifestBySpace starting at the target. -/
def filterTargetWalk (m : Manifest) (spaceID : String) :
    List (String × Option String) × Bool :=
  let rem := m.spaces.map Space.id
  walkUpF (spaceById m.spaces) (rem.length + 1) rem spaceID

/-- `includedSpaces` after the target is seeded and the ancestor walk ran. -/
def filterIncludedSeed (m : Manifest) (spaceID : String) : List String :=
  spaceID :: (filterTargetWalk m spaceID).1.map Prod.fst

/-- `ancestorSpaces`: "root" always, every space the target walk visited,
and every parent pointer the walk followed (recorded before the parent is
examined, so it can name "root", the empty string or a missing space). -/
def filterAncestorSpaces (m : Manifest) (spaceID : String) : List String :=
  "root" ::
    (filterTargetWalk m spaceID).1.foldr
      (fun cp acc =>
        match cp.2 with
        | some p => cp.1 :: p :: acc
        | none => cp.1 :: acc)
      []

/-- `includedSpaces` after the recursive child-space search. -/
def filterIncludedBase (m : Manifest) (spaceID : String) : List String :=
  descFix m.spaces (m.spaces.length + 1) (filterIncludedSeed m spaceID)

/-- The filtered stack list: a stack is kept iff its owning space id is in
`includedSpaces` as it stands before the context/policy extension. -/
def filterStacksIncluded (m : Manifest) (spaceID : String) : List Stack :=
  m.stacks.filter (fun st => st.space ∈ filterIncludedBase m spaceID)

/-- `requiredContextIDs`: context ids attached to the kept stacks, collected
in stack order (Go keeps them in a set; only membership is used). -/
def requiredContextIDs (m : Manifest) (spaceID : String) : List String :=
  (filterStacksIncluded m spaceID).foldl
    (fun acc st => acc ++ st.attachedContexts.map ContextAttachment.contextId) []

/-- `requiredPolicyIDs`: policy ids attached to the kept stacks. -/
def requiredPolicyIDs (m : Manifest) (spaceID : String) : List String :=
  (filterStacksIncluded m spaceID).foldl
    (fun acc st => acc ++ st.attachedPolicies.map PolicyAttachment.policyId) []

/-- `contextSpaceMap`: the owning space of a context id. -/
def contextSpaceOf (m : Manifest) : String → Option String :=
  fun cid => (golookup Context.id m.contexts cid).map Context.space

/-- `policySpaceMap`: the owning space of a policy id. -/
def policySpaceOf (m : Manifest) : String → Option String :=
  fun pid => (golookup Policy.id m.policies pid).map Policy.space

/-- The `includedSpaces` additions of one owner-chain walk (same loop as the
target walk, without the `ancestorSpaces` bookkeeping). -/
def ownerChainAdds (m : Manifest) (owner : String) : List String :=
  let rem := m.spaces.map Space.id
  (walkUpF (spaceById m.spaces) (rem.length + 1) rem owner).1.map Prod.fst

/-- `includedSpaces` after the owner chains of all referenced contexts and
policies were added. -/
def filterIncludedFinal (m : Manifest) (spaceID : String) : List String :=
  let withCtx :=
    (requiredContextIDs m spaceID).foldl
      (fun acc cid =>
        match contextSpaceOf m cid with
        | some w => acc ++ ownerChainAdds m w
        | none => acc)
      (filterIncludedBase m spaceID)
  (requiredPolicyIDs m spaceID).foldl
    (fun acc pid =>
      match policySpaceOf m pid with
      | some w => acc ++ ownerChainAdds m w
      | none => acc)
    withCtx

/-- filterManifestBySpace: the space-scoped projection of a manifest.
Spaces are kept iff their id is in the final included set; stacks were
filtered against the pre-extension set; contexts and policies are also kept
when directly referenced; integrations are also kept when owned by an
ancestor space. -/
def filterManifestBySpace (m : Manifest) (spaceID : String) : Manifest :=
  if spaceID = "" then m
  else
    { sourceURL := m.sourceURL
      spaces := m.spaces.filter (fun sp => sp.id ∈ filterIncludedFinal m spaceID)
      «stacks» := filterStacksIncluded m spaceID
      contexts := m.contexts.filter (fun c =>
        decide (c.space ∈ filterIncludedFinal m spaceID ∨
          c.id ∈ requiredContextIDs m spaceID))
      policies := m.policies.filter (fun p =>
        decide (p.space ∈ filterIncludedFinal m spaceID ∨
          p.id ∈ requiredPolicyIDs m spaceID))
      awsIntegrations := m.awsIntegrations.filter (fun i =>
        decide (i.space ∈ filterIncludedFinal m spaceID ∨
          i.space ∈ filterAncestorSpaces m spaceID))
      azureIntegrations := m.azureIntegrations.filter (fun i =>
        decide (i.space ∈ filterIncludedFinal m spaceID ∨
          i.space ∈ filterAncestorSpaces m spaceID)) }

/-! ### Declarative characterisation of the included sets of the filter -/

/-- One upward step of an ancestor walk: the node is a walkable space and
its parent pointer names `b`. -/
def parentStepRel (sm : String → Option Space) (a b : String) : Prop :=
  a ≠ "" ∧ a ≠ "root" ∧ ∃ sp, sm a = some sp ∧ sp.parentSpace = some b

/-- A node an ancestor walk would visit and record: not the empty id, not
"root", and present in the space map. -/
def validWalkNode (sm : String → Option Space) (x : String) : Prop :=
  x ≠ "" ∧ x ≠ "root" ∧ ∃ sp, sm x = some sp

/-- Membership in the ancestor chain of `start` (inclusive of `start` when
it is itself walkable, always exclusive of "root"). -/
def AncChainMem (sm : String → Option Space) (start x : String) : Prop :=
  Relation.ReflTransGen (parentStepRel sm) start x ∧ validWalkNode sm x

/-- One downward step: some space in the slice has id `b` and parent `a`. -/
def childStepRel (spaces : List Space) (a b : String) : Prop :=
  ∃ sp, sp ∈ spaces ∧ sp.id = b ∧ sp.parentSpace = some a

/-- The seed of the child-space search: the target and its ancestor chain. -/
def SeedSpec (m : Manifest) (t a : String) : Prop :=
  a = t ∨ AncChainMem (spaceById m.spaces) t a

/-- The pre-extension included set, declaratively: everything reachable
downward from the target or from one of its ancestors. -/
def BaseSpec (m : Manifest) (t x : String) : Prop :=
  ∃ a, SeedSpec m t a ∧ Relation.ReflTransGen (childStepRel m.spaces) a x

/-- A context id attached to some stack kept by the filter. -/
def ReferencedContextId (m : Manifest) (t r : String) : Prop :=
  ∃ st, st ∈ m.stacks ∧ BaseSpec m t st.space ∧
    ∃ att, att ∈ st.attachedContexts ∧ att.contextId = r

/-- A policy id attached to some stack kept by the filter. -/
def ReferencedPolicyId (m : Manifest) (t r : String) : Prop :=
  ∃ st, st ∈ m.stacks ∧ BaseSpec m t st.space ∧
    ∃ att, att ∈ st.attachedPolicies ∧ att.policyId = r

/-- Membership in the ancestor chain of the owning space of some referenced
context. -/
def ExtendedByContext (m : Manifest) (t x : String) : Prop :=
  ∃ r w, ReferencedContextId m t r ∧ contextSpaceOf m r = some w ∧
    AncChainMem (spaceById m.spaces) w x

/-- Membership in the ancestor chain of the owning space of some referenced
policy. -/
def ExtendedByPolicy (m : Manifest) (t x : String) : Prop :=
  ∃ r w, ReferencedPolicyId m t r ∧ policySpaceOf m r = some w ∧
    AncChainMem (spaceById m.spaces) w x

/-- The final included set, declaratively. -/
def FinalSpec (m : Manifest) (t x : String) : Prop :=
  BaseSpec m t x ∨ ExtendedByContext m t x ∨ ExtendedByPolicy m t x

/-- Whether the target walk ended at one of the stopping conditions of the
Go loop itself: empty or root id, missing space (including a dangling
parent pointer, where Go breaks), or a parentless space.  On such inputs
the embedding agrees with the Go loop; the flag is `false` only on a
parent cycle, where the Go loop diverges. -/
def targetWalkCompleted (m : Manifest) (t : String) : Bool :=
  (filterTargetWalk m t).2

/-- Whether an owner-chain walk from `w` completed. -/
def ownerWalkCompleted (m : Manifest) (w : String) : Bool :=
  let rem := m.spaces.map Space.id
  (walkUpF (spaceById m.spaces) (rem.length + 1) rem w).2

/-- Completion of the walk of an optional owner space. -/
def ownerOk (m : Manifest) (o : Option String) : Bool :=
  match o with
  | some w => ownerWalkCompleted m w
  | none => true

/-- All ancestor walks the filter performs for target `t` complete, i.e. the
Go code terminates on this input.  Dangling parent pointers and missing
spaces do complete (Go breaks on the failed lookup); only a parent cycle,
on which the Go loop never terminates, falls outside this predicate. -/
def WalksComplete (m : Manifest) (t : String) : Prop :=
  targetWalkCompleted m t = true ∧
  (∀ r ∈ requiredContextIDs m t, ownerOk m (contextSpaceOf m r) = true) ∧
  (∀ r ∈ requiredPolicyIDs m t, ownerOk m (policySpaceOf m r) = true)

/-! ### Concrete fixtures used by counterexamples and witnesses -/

/-- A space with the given id, name and parent and empty remaining fields. -/
def mkSpace (i n : String) (p : Option String) : Space :=
  { id := i, name := n, description := "", parentSpace := p,
    inheritEntities := false, labels := [] }

/-- A stack with the given identity and state-migration-relevant flags and
empty remaining fields. -/
def mkStack (i n sp vendor : String) (manages access : Bool) : Stack :=
  { id := i, name := n, description := none, space := sp, branch := "main",
    repository := "repo", namespaceField := "", projectRoot := none,
    provider := "GITHUB", vendorType := vendor, repositoryURL := none,
    runnerImage := none, terraformVersion := none, terragruntVersion := none,
    workflowTool := none, administrative := false, autodeploy := false,
    autoretry := false, localPreviewEnabled := false,
    protectFromDeletion := false, isDisabled := false,
    managesStateFile := manages, externalStateAccessEnabled := access,
    labels := [], additionalProjectGlobs := [], hooks := emptyHooks,
    attachedContexts := [], attachedPolicies := [], dependsOn := [],
    attachedAWSIntegrations := [], attachedAzureIntegrations := [] }

/-- The hierarchy root → infra → {infra-prod, infra-dev}, plus an unrelated
subtree root → other. -/
def exampleSpaces : List Space :=
  [mkSpace "root" "root" none,
   mkSpace "infra" "infra" (some "root"),
   mkSpace "infra-prod" "infra-prod" (some "infra"),
   mkSpace "infra-dev" "infra-dev" (some "infra"),
   mkSpace "other" "other" (some "root")]

/-- A manifest over `exampleSpaces` with one stack in each leaf space. -/
def exampleManifest : Manifest :=
  { sourceURL := "https://source.example.test",
    spaces := exampleSpaces,
    «stacks» :=
      [mkStack "st-prod" "prod-stack" "infra-prod" "StackConfigVendorTerraform" true true,
       mkStack "st-dev" "dev-stack" "infra-dev" "StackConfigVendorTerraform" true true,
       mkStack "st-other" "other-stack" "other" "StackConfigVendorTerraform" true true],
    contexts := [], policies := [], awsIntegrations := [], azureIntegrations := [] }

/-- Transfer oracle for which every operation succeeds. -/
def opsAllOk : TransferOps :=
  { getStateDownloadURL := fun sid => .ok ("dl://" ++ sid),
    getStateUploadURL := fun sid => .ok { url := "ul://" ++ sid, objectID := "obj-" ++ sid },
    streamStateFromURL := fun _ => .ok ("blob", 42),
    uploadStateToURL := fun _ _ _ => .ok (),
    lockStack := fun _ => .ok (),
    importManagedState := fun _ _ => .ok (),
    unlockStack := fun _ => .ok () }

/-- Transfer oracle failing exactly the import step. -/
def opsImportFails : TransferOps :=
  { opsAllOk with importManagedState := fun _ _ => .error "import exploded" }

/-- Transfer oracle failing exactly the final unlock step. -/
def opsUnlockFails : TransferOps :=
  { opsAllOk with unlockStack := fun _ => .error "unlock exploded" }

/-- Transfer oracle failing the state download of one specific stack. -/
def opsDownloadFailsFor (bad : String) : TransferOps :=
  { opsAllOk with
    getStateDownloadURL := fun sid =>
      if sid = bad then .error "download refused" else .ok ("dl://" ++ sid) }

/-- A migration candidate between two concrete stacks named alike. -/
def exampleCandidate (i : String) : MigrationCandidate :=
  { source := mkStack ("src-" ++ i) ("stack-" ++ i) "root" "StackConfigVendorTerraform" true true,
    dest := mkStack ("dst-" ++ i) ("stack-" ++ i) "root" "StackConfigVendorTerraform" true true }

/-- Discovery oracle for which every fetch succeeds but is empty. -/
def discoveryOpsEmpty : DiscoveryOps :=
  { discoverSpaces := .ok [], discoverContexts := .ok [],
    discoverPolicies := .ok [], discoverStacks := .ok [],
    discoverAWSIntegrations := .ok [], discoverAzureIntegrations := .ok [],
    discoverAWSIntegrationAttachments := fun _ => .ok [],
    discoverAzureIntegrationAttachments := fun _ => .ok [] }

/-- Discovery oracle whose space fetch fails. -/
def discoveryOpsSpacesFail : DiscoveryOps :=
  { discoveryOpsEmpty with discoverSpaces := .error "boom" }

/-! ## Theorems -/

theorem golookup_eq_none {α : Type} (key : α → String) (xs : List α) (k : String)
    (h : ∀ x ∈ xs, key x ≠ k) : golookup key xs k = none := by
  induction xs with
  | nil => rfl
  | cons x xs ih =>
    simp only [golookup, ih fun y hy => h y (List.mem_cons_of_mem x hy)]
    simp [h x (List.mem_cons_self x xs)]

theorem golookup_append_single {α : Type} (key : α → String) (xs : List α)
    (x : α) (k : String) :
    golookup key (xs ++ [x]) k =
      if key x = k then some x else golookup key xs k := by
  induction xs with
  | nil => by_cases hx : key x = k <;> simp [golookup, hx]
  | cons y ys ih => by_cases hx : key x = k <;> simp [golookup, ih, hx]

theorem golookup_mem {α : Type} (key : α → String) (xs : List α) (k : String)
    (x : α) (h : golookup key xs k = some x) : x ∈ xs ∧ key x = k := by
  induction xs with
  | nil => simp [golookup] at h
  | cons y ys ih =>
    simp only [golookup] at h
    cases hys : golookup key ys k with
    | some r =>
      rw [hys] at h
      obtain rfl := Option.some.inj h
      obtain ⟨hm, hk⟩ := ih hys
      exact ⟨List.mem_cons_of_mem _ hm, hk⟩
    | none =>
      rw [hys] at h
      by_cases hy : key y = k
      · rw [if_pos hy] at h
        obtain rfl := Option.some.inj h
        exact ⟨List.mem_cons_self _ _, hy⟩
      · rw [if_neg hy] at h
        simp at h

theorem foldl_append_ite_filter (sid : String) : ∀ (l : List Stack) (init : List Stack),
    l.foldl (fun acc st => if st.space = sid then acc ++ [st] else acc) init
      = init ++ l.filter (fun st => st.space == sid) := by
  intro l
  induction l with
  | nil => intro init; simp
  | cons x xs ih =>
    intro init
    by_cases hx : x.space = sid <;> simp [hx, ih, List.filter_cons]

/-- C2: the state-migration classification is a total function into the five
dispositions, evaluated in the order: externally-managed state, then
non-Terraform-family vendor, then disabled external access, then absence
from the destination name map; a candidate is paired with the destination
stack of matching name, and the last destination stack discovered with a
given name wins the pairing. -/
theorem C2_classification_total_ordered_lastwins (destStacks : List Stack) (st : Stack) :
    (classifyStack (golookup Stack.name destStacks) st = .skipSelfManaged ↔
      st.managesStateFile = false) ∧
    (classifyStack (golookup Stack.name destStacks) st = .skipNonApplicableVendor ↔
      st.managesStateFile = true ∧ st.isTerraform = false) ∧
    (classifyStack (golookup Stack.name destStacks) st = .blockedNoExternalAccess ↔
      st.managesStateFile = true ∧ st.isTerraform = true ∧
        st.externalStateAccessEnabled = false) ∧
    (classifyStack (golookup Stack.name destStacks) st = .blockedNotInDestination ↔
      st.managesStateFile = true ∧ st.isTerraform = true ∧
        st.externalStateAccessEnabled = true ∧
        golookup Stack.name destStacks st.name = none) ∧
    (∀ d, classifyStack (golookup Stack.name destStacks) st = .candidate d ↔
      st.managesStateFile = true ∧ st.isTerraform = true ∧
        st.externalStateAccessEnabled = true ∧
        golookup Stack.name destStacks st.name = some d) ∧
    (∀ d, classifyStack (golookup Stack.name destStacks) st = .candidate d →
      d ∈ destStacks ∧ d.name = st.name) ∧
    (∀ (pre : List Stack) (d : Stack), golookup Stack.name (pre ++ [d]) d.name = some d) := by
  refine ⟨?_, ?_, ?_, ?_, ?_, ?_, ?_⟩
  · cases hm : st.managesStateFile <;> cases ht : st.isTerraform <;>
      cases ha : st.externalStateAccessEnabled <;>
      cases hd : golookup Stack.name destStacks st.name <;>
      simp [classifyStack, hm, ht, ha, hd]
  · cases hm : st.managesStateFile <;> cases ht : st.isTerraform <;>
      cases ha : st.externalStateAccessEnabled <;>
      cases hd : golookup Stack.name destStacks st.name <;>
      simp [classifyStack, hm, ht, ha, hd]
  · cases hm : st.managesStateFile <;> cases ht : st.isTerraform <;>
      cases ha : st.externalStateAccessEnabled <;>
      cases hd : golookup Stack.name destStacks st.name <;>
      simp [classifyStack, hm, ht, ha, hd]
  · cases hm : st.managesStateFile <;> cases ht : st.isTerraform <;>
      cases ha : st.externalStateAccessEnabled <;>
      cases hd : golookup Stack.name destStacks st.name <;>
      simp [classifyStack, hm, ht, ha, hd]
  · intro d
    cases hm : st.managesStateFile <;> cases ht : st.isTerraform <;>
      cases ha : st.externalStateAccessEnabled <;>
      cases hd : golookup Stack.name destStacks st.name <;>
      simp [classifyStack, hm, ht, ha, hd]
  · intro d h
    have hd : golookup Stack.name destStacks st.name = some d := by
      cases hm : st.managesStateFile <;> cases ht : st.isTerraform <;>
        cases ha : st.externalStateAccessEnabled <;>
        cases hd : golookup Stack.name destStacks st.name <;>
        simp [classifyStack, hm, ht, ha, hd] at h <;> simp [h, hd]
    obtain ⟨hmem, hname⟩ := golookup_mem Stack.name destStacks st.name d hd
    exact ⟨hmem, hname⟩
  · intro pre d
    rw [golookup_append_single]
    simp

/-- C8 counterexample: the status codes 202 and 201 are in the 2xx range,
yet a 202 response fails both streaming helpers and a 201 response fails the
download helper, refuting "success is any 2xx response". -/
theorem C8_streaming_success_counterexample :
    (200 ≤ 202 ∧ 202 < 300 ∧ 200 ≤ 201 ∧ 201 < 300) ∧
    okB (streamStateFromURLModel (.ok { status := 202, body := "s", contentLength := 7 })) = false ∧
    okB (uploadStateToURLModel (.ok { status := 202, body := "", contentLength := 0 })) = false ∧
    okB (streamStateFromURLModel (.ok { status := 201, body := "s", contentLength := 7 })) = false := by
  decide

/-- C8 amended: StreamStateFromURL succeeds — returning the body stream and
the content length of the response — iff the download status is exactly
200, and UploadStateToURL succeeds iff the upload response status is 200,
201 or 204; a transport-level failure is propagated as a wrapped error. -/
theorem C8_streaming_success_amended (r : HTTPResponse) :
    (streamStateFromURLModel (.ok r) = .ok (r.body, r.contentLength) ↔ r.status = 200) ∧
    (okB (uploadStateToURLModel (.ok r)) = true ↔
      (r.status = 200 ∨ r.status = 201 ∨ r.status = 204)) ∧
    (∀ e, streamStateFromURLModel (.error e) = .error ("failed to download state: " ++ e)) ∧
    (∀ e, uploadStateToURLModel (.error e) = .error ("failed to upload state: " ++ e)) := by
  refine ⟨?_, ?_, fun e => rfl, fun e => rfl⟩
  · by_cases h : r.status = 200 <;> simp [streamStateFromURLModel, h]
  · by_cases h0 : r.status = 200 <;> by_cases h1 : r.status = 201 <;>
      by_cases h4 : r.status = 204 <;> simp [uploadStateToURLModel, okB, h0, h1, h4]

/-- C10: the state commands select stacks by exact equality of the owning
space id with the resolved target only; concretely, with stacks living in
the strict descendants infra-prod and infra-dev of infra, the state-side
filter for infra selects nothing, while the generate-side manifest filter
for infra keeps the stacks of both descendants. -/
theorem C10_state_space_filter_exact (sts : List Stack) (sid : String) :
    (∀ st, st ∈ filterStacksBySpace sts sid ↔ st ∈ sts ∧ st.space = sid) ∧
    (filterStacksBySpace exampleManifest.stacks "infra" = []) ∧
    ((filterManifestBySpace exampleManifest "infra").stacks.map Stack.id =
      ["st-prod", "st-dev"]) := by
  refine ⟨?_, by decide, by decide⟩
  intro st
  simp [filterStacksBySpace, foldl_append_ite_filter, List.mem_filter]

/-- C3: per-candidate transfer state machine.  A failure at any step before
the lock (download URL, upload URL, download stream, upload stream) marks
the candidate failed with no lock or unlock call; if the lock succeeded and
the import fails, an unlock is still attempted and the candidate fails; if
the import succeeded, a failing final unlock leaves the outcome succeeded
(the unlock call is made and its result is not consulted). -/
theorem C3_transfer_state_machine (ops : TransferOps) (c : MigrationCandidate) :
    (((∃ e, ops.getStateDownloadURL c.source.id = .error e) ∨
      (∃ u e, ops.getStateDownloadURL c.source.id = .ok u ∧
        ops.getStateUploadURL c.dest.id = .error e) ∨
      (∃ u ur e, ops.getStateDownloadURL c.source.id = .ok u ∧
        ops.getStateUploadURL c.dest.id = .ok ur ∧
        ops.streamStateFromURL u = .error e) ∨
      (∃ u ur rd e, ops.getStateDownloadURL c.source.id = .ok u ∧
        ops.getStateUploadURL c.dest.id = .ok ur ∧
        ops.streamStateFromURL u = .ok rd ∧
        ops.uploadStateToURL ur.url rd.1 rd.2 = .error e)) →
      (runCandidate ops c).1 = false ∧
      (∀ x, CallEvent.lockStack x ∉ (runCandidate ops c).2) ∧
      (∀ x, CallEvent.unlockStack x ∉ (runCandidate ops c).2)) ∧
    (∀ u ur rd e,
      ops.getStateDownloadURL c.source.id = .ok u →
      ops.getStateUploadURL c.dest.id = .ok ur →
      ops.streamStateFromURL u = .ok rd →
      ops.uploadStateToURL ur.url rd.1 rd.2 = .ok () →
      ops.lockStack c.dest.id = .ok () →
      ops.importManagedState c.dest.id ur.objectID = .error e →
      (runCandidate ops c).1 = false ∧
      CallEvent.unlockStack c.dest.id ∈ (runCandidate ops c).2) ∧
    (∀ u ur rd e,
      ops.getStateDownloadURL c.source.id = .ok u →
      ops.getStateUploadURL c.dest.id = .ok ur →
      ops.streamStateFromURL u = .ok rd →
      ops.uploadStateToURL ur.url rd.1 rd.2 = .ok () →
      ops.lockStack c.dest.id = .ok () →
      ops.importManagedState c.dest.id ur.objectID = .ok () →
      ops.unlockStack c.dest.id = .error e →
      (runCandidate ops c).1 = true ∧
      CallEvent.unlockStack c.dest.id ∈ (runCandidate ops c).2) := by
  refine ⟨?_, ?_, ?_⟩
  · rintro (⟨e, he⟩ | ⟨u, e, hu, he⟩ | ⟨u, ur, e, hu, hur, he⟩ | ⟨u, ur, rd, e, hu, hur, hrd, he⟩)
    · simp [runCandidate, he]
    · simp [runCandidate, hu, he]
    · simp [runCandidate, hu, hur, he]
    · simp [runCandidate, hu, hur, hrd, he]
  · intro u ur rd e hu hur hrd hup hl hi
    simp [runCandidate, hu, hur, hrd, hup, hl, hi]
  · intro u ur rd e hu hur hrd hup hl hi hun
    simp [runCandidate, hu, hur, hrd, hup, hl, hi]

/-- C3 witness: with an oracle failing exactly the import, a concrete
candidate is failed and its unlock is still attempted. -/
theorem C3_transfer_state_machine_witness :
    (runCandidate opsImportFails (exampleCandidate "w3")).1 = false ∧
    CallEvent.unlockStack (exampleCandidate "w3").dest.id ∈
      (runCandidate opsImportFails (exampleCandidate "w3")).2 :=
  (C3_transfer_state_machine opsImportFails (exampleCandidate "w3")).2.1
    "dl://src-w3" { url := "ul://dst-w3", objectID := "obj-dst-w3" } ("blob", 42)
    "import exploded" rfl rfl rfl rfl rfl rfl

theorem pipelineTrace_shift (ops : TransferOps) :
    ∀ (cands : List MigrationCandidate) (init : List CallEvent),
    cands.foldl (fun acc c => acc ++ (runCandidate ops c).2) init
      = init ++ cands.foldl (fun acc c => acc ++ (runCandidate ops c).2) [] := by
  intro cands
  induction cands with
  | nil => intro init; simp
  | cons c cs ih =>
    intro init
    simp only [List.foldl_cons, List.nil_append]
    rw [ih (init ++ (runCandidate ops c).2), ih ((runCandidate ops c).2), List.append_assoc]

theorem runPipeline_foldl_spec (ops : TransferOps) :
    ∀ (cands : List MigrationCandidate) (s f : Nat) (tr : List CallEvent),
    cands.foldl
      (fun acc c =>
        let (succ, fail, tr) := acc
        let r := runCandidate ops c
        if r.1 then (succ + 1, fail, tr ++ r.2) else (succ, fail + 1, tr ++ r.2))
      (s, f, tr) =
      (s + (cands.filter (fun c => (runCandidate ops c).1)).length,
       f + (cands.filter (fun c => !(runCandidate ops c).1)).length,
       tr ++ cands.foldl (fun acc c => acc ++ (runCandidate ops c).2) []) := by
  intro cands
  induction cands with
  | nil => intro s f tr; simp
  | cons c cs ih =>
    intro s f tr
    simp only [List.foldl_cons]
    cases hc : (runCandidate ops c).1 <;>
      simp [hc, List.filter_cons, ih, pipelineTrace_shift ops cs ((runCandidate ops c).2),
        List.append_assoc] <;> omega

theorem runPipeline_spec (ops : TransferOps) (cands : List MigrationCandidate) :
    runPipeline ops cands =
      ((cands.filter (fun c => (runCandidate ops c).1)).length,
       (cands.filter (fun c => !(runCandidate ops c).1)).length,
       cands.foldl (fun acc c => acc ++ (runCandidate ops c).2) []) := by
  have h := runPipeline_foldl_spec ops cands 0 0 []
  simpa [runPipeline] using h

theorem filter_length_add_filter_not_length {α : Type} (p : α → Bool) (l : List α) :
    (l.filter p).length + (l.filter (fun x => !(p x))).length = l.length := by
  induction l with
  | nil => rfl
  | cons x xs ih => cases hx : p x <;> simp [List.filter_cons, hx] <;> omega

/-- C4: pipeline isolation.  The success and failure counts are exactly the
numbers of candidates whose own run succeeds resp. fails (the
outcome of each candidate is a function of the oracle and that candidate
alone), every
candidate is accounted for, the overall command reports an error iff the
failure count is positive, and for candidates [A, B, C] with B failing and
A, C succeeding the pipeline reports two successes and exactly one
failure. -/
theorem C4_pipeline_isolation (ops : TransferOps) (cands : List MigrationCandidate) :
    ((runPipeline ops cands).1 =
      (cands.filter (fun c => (runCandidate ops c).1)).length) ∧
    ((runPipeline ops cands).2.1 =
      (cands.filter (fun c => !(runCandidate ops c).1)).length) ∧
    ((runPipeline ops cands).1 + (runPipeline ops cands).2.1 = cands.length) ∧
    (∀ (dryRun : Bool) (srcSts dstSts : List Stack) (sid : Option String),
      (runStateMigrateModel dryRun ops srcSts dstSts sid).1.migrateError ≠ none ↔
        0 < (runStateMigrateModel dryRun ops srcSts dstSts sid).1.failed) ∧
    (∀ A B C : MigrationCandidate,
      (runCandidate ops A).1 = true → (runCandidate ops B).1 = false →
      (runCandidate ops C).1 = true →
      (runPipeline ops [A, B, C]).1 = 2 ∧ (runPipeline ops [A, B, C]).2.1 = 1) := by
  refine ⟨?_, ?_, ?_, ?_, ?_⟩
  · rw [runPipeline_spec]
  · rw [runPipeline_spec]
  · rw [runPipeline_spec]
    exact filter_length_add_filter_not_length _ cands
  · intro dryRun srcSts dstSts sid
    simp only [runStateMigrateModel]
    cases hE : (partitionStacks (fun n => golookup Stack.name dstSts n)
        (match sid with
         | some i => filterStacksBySpace srcSts i
         | none => srcSts)).1.isEmpty <;>
      cases dryRun <;>
      simp [hE] <;>
      cases hf : (runPipeline ops _).2.1 <;> simp [hf]
  · intro A B C hA hB hC
    rw [runPipeline_spec]
    simp [List.filter_cons, hA, hB, hC]

/-- C4 witness: for three concrete candidates where exactly the download of
the middle one fails, the other two still succeed and one failure is
counted. -/
theorem C4_pipeline_isolation_witness :
    (runPipeline (opsDownloadFailsFor "src-b")
      [exampleCandidate "a", exampleCandidate "b", exampleCandidate "c"]).1 = 2 ∧
    (runPipeline (opsDownloadFailsFor "src-b")
      [exampleCandidate "a", exampleCandidate "b", exampleCandidate "c"]).2.1 = 1 :=
  (C4_pipeline_isolation (opsDownloadFailsFor "src-b")
      [exampleCandidate "a", exampleCandidate "b", exampleCandidate "c"]).2.2.2.2
    (exampleCandidate "a") (exampleCandidate "b") (exampleCandidate "c")
    (by decide) (by decide) (by decide)

/-- C7: in dry-run mode the migrate pipeline makes zero transfer calls (the
event trace is empty, so in particular no download-URL, upload-URL, stream,
lock, import or unlock call happens), reports no error, and still reports
the computed classification and pairing. -/
theorem C7_dry_run_no_transfer_calls (ops : TransferOps)
    (srcSts dstSts : List Stack) (sid : Option String) :
    (runStateMigrateModel true ops srcSts dstSts sid).2 = [] ∧
    (runStateMigrateModel true ops srcSts dstSts sid).1.migrateError = none ∧
    (runStateMigrateModel true ops srcSts dstSts sid).1.candidates =
      (partitionStacks (fun n => golookup Stack.name dstSts n)
        (match sid with
         | some i => filterStacksBySpace srcSts i
         | none => srcSts)).1 := by
  simp only [runStateMigrateModel]
  cases hE : (partitionStacks (fun n => golookup Stack.name dstSts n)
      (match sid with
       | some i => filterStacksBySpace srcSts i
       | none => srcSts)).1.isEmpty <;> simp [hE]

theorem okB_true_iff {ε α : Type} (x : Except ε α) : okB x = true ↔ ∃ a, x = .ok a := by
  cases x <;> simp [okB]

theorem mergeAWSAttachments_error_first (ops : DiscoveryOps) (idx : String → Option Nat) :
    ∀ (pre : List AWSIntegration) (i : AWSIntegration) (rest : List AWSIntegration)
      (sts : List Stack) (e : String),
    (∀ j ∈ pre, okB (ops.discoverAWSIntegrationAttachments j.id) = true) →
    ops.discoverAWSIntegrationAttachments i.id = .error e →
    mergeAWSAttachments ops idx (pre ++ i :: rest) sts =
      .error ("failed to discover AWS integration attachments for " ++ i.name ++ ": " ++ e) := by
  intro pre
  induction pre with
  | nil =>
    intro i rest sts e _ hi
    simp [mergeAWSAttachments, hi]
  | cons j pre ih =>
    intro i rest sts e hpre hi
    obtain ⟨atts, hj⟩ := (okB_true_iff _).mp (hpre j (List.mem_cons_self j pre))
    simp only [List.cons_append, mergeAWSAttachments, hj]
    exact ih i rest _ e (fun x hx => hpre x (List.mem_cons_of_mem j hx)) hi

theorem mergeAzureAttachments_error_first (ops : DiscoveryOps) (idx : String → Option Nat) :
    ∀ (pre : List AzureIntegration) (i : AzureIntegration) (rest : List AzureIntegration)
      (sts : List Stack) (e : String),
    (∀ j ∈ pre, okB (ops.discoverAzureIntegrationAttachments j.id) = true) →
    ops.discoverAzureIntegrationAttachments i.id = .error e →
    mergeAzureAttachments ops idx (pre ++ i :: rest) sts =
      .error ("failed to discover Azure integration attachments for " ++ i.name ++ ": " ++ e) := by
  intro pre
  induction pre with
  | nil =>
    intro i rest sts e _ hi
    simp [mergeAzureAttachments, hi]
  | cons j pre ih =>
    intro i rest sts e hpre hi
    obtain ⟨atts, hj⟩ := (okB_true_iff _).mp (hpre j (List.mem_cons_self j pre))
    simp only [List.cons_append, mergeAzureAttachments, hj]
    exact ih i rest _ e (fun x hx => hpre x (List.mem_cons_of_mem j hx)) hi

theorem mergeAWSAttachments_ok (ops : DiscoveryOps) (idx : String → Option Nat) :
    ∀ (l : List AWSIntegration) (sts : List Stack),
    (∀ j ∈ l, okB (ops.discoverAWSIntegrationAttachments j.id) = true) →
    ∃ sts2, mergeAWSAttachments ops idx l sts = .ok sts2 := by
  intro l
  induction l with
  | nil => intro sts _; exact ⟨sts, rfl⟩
  | cons i rest ih =>
    intro sts h
    obtain ⟨atts, hi⟩ := (okB_true_iff _).mp (h i (List.mem_cons_self i rest))
    obtain ⟨sts2, hrec⟩ := ih (applyAWSAttachments idx atts sts)
      (fun x hx => h x (List.mem_cons_of_mem i hx))
    exact ⟨sts2, by simp [mergeAWSAttachments, hi, hrec]⟩

theorem mergeAWSAttachments_ok_fetches (ops : DiscoveryOps) (idx : String → Option Nat) :
    ∀ (l : List AWSIntegration) (sts sts2 : List Stack),
    mergeAWSAttachments ops idx l sts = .ok sts2 →
    ∀ j ∈ l, okB (ops.discoverAWSIntegrationAttachments j.id) = true := by
  intro l
  induction l with
  | nil => intro sts sts2 _ j hj; exact absurd hj (List.not_mem_nil j)
  | cons i rest ih =>
    intro sts sts2 hok j hj
    cases hi : ops.discoverAWSIntegrationAttachments i.id with
    | error e => simp [mergeAWSAttachments, hi] at hok
    | ok atts =>
      rcases List.mem_cons.mp hj with rfl | hj2
      · simp [okB, hi]
      · refine ih (applyAWSAttachments idx atts sts) sts2 ?_ j hj2
        simpa [mergeAWSAttachments, hi] using hok

theorem mergeAzureAttachments_ok_fetches (ops : DiscoveryOps) (idx : String → Option Nat) :
    ∀ (l : List AzureIntegration) (sts sts2 : List Stack),
    mergeAzureAttachments ops idx l sts = .ok sts2 →
    ∀ j ∈ l, okB (ops.discoverAzureIntegrationAttachments j.id) = true := by
  intro l
  induction l with
  | nil => intro sts sts2 _ j hj; exact absurd hj (List.not_mem_nil j)
  | cons i rest ih =>
    intro sts sts2 hok j hj
    cases hi : ops.discoverAzureIntegrationAttachments i.id with
    | error e => simp [mergeAzureAttachments, hi] at hok
    | ok atts =>
      rcases List.mem_cons.mp hj with rfl | hj2
      · simp [okB, hi]
      · refine ih (applyAzureAttachments idx atts sts) sts2 ?_ j hj2
        simpa [mergeAzureAttachments, hi] using hok

/-- C5: any sub-collection fetch failure during manifest construction —
spaces, contexts, policies, stacks, AWS or Azure integrations, or any
attachment fetch of any AWS or Azure integration — aborts the build, and
DiscoverAll returns the first error wrapped with the name of the failing
sub-fetch; no manifest accompanies an error, and a returned manifest implies
every collection fetch and every per-integration attachment fetch
succeeded. -/
theorem C5_discovery_fail_fast (ops : DiscoveryOps) (url : String) :
    (∀ e, ops.discoverSpaces = .error e →
      DiscoverAll ops url = .error ("failed to discover spaces: " ++ e)) ∧
    (∀ sps e, ops.discoverSpaces = .ok sps → ops.discoverContexts = .error e →
      DiscoverAll ops url = .error ("failed to discover contexts: " ++ e)) ∧
    (∀ sps ctxs e, ops.discoverSpaces = .ok sps → ops.discoverContexts = .ok ctxs →
      ops.discoverPolicies = .error e →
      DiscoverAll ops url = .error ("failed to discover policies: " ++ e)) ∧
    (∀ sps ctxs pols e, ops.discoverSpaces = .ok sps → ops.discoverContexts = .ok ctxs →
      ops.discoverPolicies = .ok pols → ops.discoverStacks = .error e →
      DiscoverAll ops url = .error ("failed to discover stacks: " ++ e)) ∧
    (∀ sps ctxs pols sts e, ops.discoverSpaces = .ok sps → ops.discoverContexts = .ok ctxs →
      ops.discoverPolicies = .ok pols → ops.discoverStacks = .ok sts →
      ops.discoverAWSIntegrations = .error e →
      DiscoverAll ops url = .error ("failed to discover AWS integrations: " ++ e)) ∧
    (∀ sps ctxs pols sts awsInts e, ops.discoverSpaces = .ok sps →
      ops.discoverContexts = .ok ctxs →
      ops.discoverPolicies = .ok pols → ops.discoverStacks = .ok sts →
      ops.discoverAWSIntegrations = .ok awsInts →
      ops.discoverAzureIntegrations = .error e →
      DiscoverAll ops url = .error ("failed to discover Azure integrations: " ++ e)) ∧
    (∀ sps ctxs pols sts awsInts azureInts pre i rest e,
      ops.discoverSpaces = .ok sps → ops.discoverContexts = .ok ctxs →
      ops.discoverPolicies = .ok pols → ops.discoverStacks = .ok sts →
      ops.discoverAWSIntegrations = .ok awsInts →
      ops.discoverAzureIntegrations = .ok azureInts →
      awsInts = pre ++ i :: rest →
      (∀ j ∈ pre, okB (ops.discoverAWSIntegrationAttachments j.id) = true) →
      ops.discoverAWSIntegrationAttachments i.id = .error e →
      DiscoverAll ops url = .error
        ("failed to discover AWS integration attachments for " ++ i.name ++ ": " ++ e)) ∧
    (∀ sps ctxs pols sts awsInts azureInts pre i rest e,
      ops.discoverSpaces = .ok sps → ops.discoverContexts = .ok ctxs →
      ops.discoverPolicies = .ok pols → ops.discoverStacks = .ok sts →
      ops.discoverAWSIntegrations = .ok awsInts →
      ops.discoverAzureIntegrations = .ok azureInts →
      (∀ j ∈ awsInts, okB (ops.discoverAWSIntegrationAttachments j.id) = true) →
      azureInts = pre ++ i :: rest →
      (∀ j ∈ pre, okB (ops.discoverAzureIntegrationAttachments j.id) = true) →
      ops.discoverAzureIntegrationAttachments i.id = .error e →
      DiscoverAll ops url = .error
        ("failed to discover Azure integration attachments for " ++ i.name ++ ": " ++ e)) ∧
    (∀ m, DiscoverAll ops url = .ok m →
      okB ops.discoverSpaces = true ∧ okB ops.discoverContexts = true ∧
      okB ops.discoverPolicies = true ∧ okB ops.discoverStacks = true ∧
      okB ops.discoverAWSIntegrations = true ∧ okB ops.discoverAzureIntegrations = true ∧
      (∀ awsInts, ops.discoverAWSIntegrations = .ok awsInts →
        ∀ j ∈ awsInts, okB (ops.discoverAWSIntegrationAttachments j.id) = true) ∧
      (∀ azureInts, ops.discoverAzureIntegrations = .ok azureInts →
        ∀ j ∈ azureInts, okB (ops.discoverAzureIntegrationAttachments j.id) = true)) := by
  refine ⟨?_, ?_, ?_, ?_, ?_, ?_, ?_, ?_, ?_⟩
  · intro e h1
    simp [DiscoverAll, h1]
  · intro sps e h1 h2
    simp [DiscoverAll, h1, h2]
  · intro sps ctxs e h1 h2 h3
    simp [DiscoverAll, h1, h2, h3]
  · intro sps ctxs pols e h1 h2 h3 h4
    simp [DiscoverAll, h1, h2, h3, h4]
  · intro sps ctxs pols sts e h1 h2 h3 h4 h5
    simp [DiscoverAll, h1, h2, h3, h4, h5]
  · intro sps ctxs pols sts awsInts e h1 h2 h3 h4 h5 h6
    simp [DiscoverAll, h1, h2, h3, h4, h5, h6]
  · intro sps ctxs pols sts awsInts azureInts pre i rest e h1 h2 h3 h4 h5 h6 hsplit hpre hi
    have hm := mergeAWSAttachments_error_first ops (stackIndexMap sts) pre i rest sts e hpre hi
    simp [DiscoverAll, h1, h2, h3, h4, h5, h6, hsplit, hm]
  · intro sps ctxs pols sts awsInts azureInts pre i rest e h1 h2 h3 h4 h5 h6 haws hsplit hpre hi
    obtain ⟨sts1, hok⟩ := mergeAWSAttachments_ok ops (stackIndexMap sts) awsInts sts haws
    have hm := mergeAzureAttachments_error_first ops (stackIndexMap sts) pre i rest sts1 e hpre hi
    simp [DiscoverAll, h1, h2, h3, h4, h5, h6, hok, hsplit, hm]
  · intro m hm
    cases h1 : ops.discoverSpaces with
    | error e => simp [DiscoverAll, h1] at hm
    | ok sps =>
    cases h2 : ops.discoverContexts with
    | error e => simp [DiscoverAll, h1, h2] at hm
    | ok ctxs =>
    cases h3 : ops.discoverPolicies with
    | error e => simp [DiscoverAll, h1, h2, h3] at hm
    | ok pols =>
    cases h4 : ops.discoverStacks with
    | error e => simp [DiscoverAll, h1, h2, h3, h4] at hm
    | ok sts =>
    cases h5 : ops.discoverAWSIntegrations with
    | error e => simp [DiscoverAll, h1, h2, h3, h4, h5] at hm
    | ok awsInts =>
    cases h6 : ops.discoverAzureIntegrations with
    | error e => simp [DiscoverAll, h1, h2, h3, h4, h5, h6] at hm
    | ok azureInts =>
    cases hA : mergeAWSAttachments ops (stackIndexMap sts) awsInts sts with
    | error e => simp [DiscoverAll, h1, h2, h3, h4, h5, h6, hA] at hm
    | ok sts1 =>
    cases hZ : mergeAzureAttachments ops (stackIndexMap sts) azureInts sts1 with
    | error e => simp [DiscoverAll, h1, h2, h3, h4, h5, h6, hA, hZ] at hm
    | ok sts2 =>
      refine ⟨by simp [okB, h1], by simp [okB, h2], by simp [okB, h3], by simp [okB, h4],
        by simp [okB, h5], by simp [okB, h6], ?_, ?_⟩
      · intro l hl j hj
        obtain rfl := Except.ok.inj hl
        exact mergeAWSAttachments_ok_fetches ops (stackIndexMap sts) awsInts sts sts1 hA j hj
      · intro l hl j hj
        obtain rfl := Except.ok.inj hl
        exact mergeAzureAttachments_ok_fetches ops (stackIndexMap sts) azureInts sts1 sts2 hZ j hj

/-- C5 witness: a failing space fetch yields exactly the wrapped error. -/
theorem C5_discovery_fail_fast_witness :
    DiscoverAll discoveryOpsSpacesFail "https://src.example.test" =
      .error ("failed to discover spaces: " ++ "boom") :=
  (C5_discovery_fail_fast discoveryOpsSpacesFail "https://src.example.test").1 "boom" rfl

theorem hyphenScanAux_none_split (byId : String → Option Space) :
    ∀ (rev acc : List Char), hyphenScanAux byId rev acc = none →
    ∀ rpre rsuf, rev = rpre ++ '-' :: rsuf →
    byId (String.mk (rpre.reverse ++ acc)) = none := by
  intro rev
  induction rev with
  | nil =>
    intro acc _ rpre rsuf h
    exact absurd h (by simp)
  | cons c rest ih =>
    intro acc hscan rpre rsuf hsplit
    by_cases hc : c = '-'
    · subst hc
      simp only [hyphenScanAux, if_pos rfl] at hscan
      cases hacc : byId (String.mk acc) with
      | some sp =>
        rw [hacc] at hscan
        exact absurd hscan (by simp)
      | none =>
        rw [hacc] at hscan
        cases rpre with
        | nil =>
          simpa using hacc
        | cons c0 rpre2 =>
          rw [List.cons_append] at hsplit
          obtain ⟨hc0, hrest⟩ := List.cons.inj hsplit
          have hres := ih ('-' :: acc) hscan rpre2 rsuf hrest
          rw [← hc0]
          simpa [List.append_assoc] using hres
    · simp only [hyphenScanAux, if_neg hc] at hscan
      cases rpre with
      | nil =>
        rw [List.nil_append] at hsplit
        exact absurd (List.cons.inj hsplit).1 hc
      | cons c0 rpre2 =>
        rw [List.cons_append] at hsplit
        obtain ⟨hc0, hrest⟩ := List.cons.inj hsplit
        have hres := ih (c :: acc) hscan rpre2 rsuf hrest
        rw [← hc0]
        simpa [List.append_assoc] using hres

theorem hyphenScanAux_some_split (byId : String → Option Space) :
    ∀ (rev acc : List Char) (sp : Space), hyphenScanAux byId rev acc = some sp →
    ∃ rpre rsuf, rev = rpre ++ '-' :: rsuf ∧
      byId (String.mk (rpre.reverse ++ acc)) = some sp ∧
      ∀ rpre2 rsuf2, rev = rpre2 ++ '-' :: rsuf2 → rpre2.length < rpre.length →
        byId (String.mk (rpre2.reverse ++ acc)) = none := by
  intro rev
  induction rev with
  | nil =>
    intro acc sp h
    exact absurd h (by simp [hyphenScanAux])
  | cons c rest ih =>
    intro acc sp hscan
    by_cases hc : c = '-'
    · subst hc
      simp only [hyphenScanAux, if_pos rfl] at hscan
      cases hacc : byId (String.mk acc) with
      | some sp0 =>
        rw [hacc] at hscan
        obtain rfl := Option.some.inj hscan
        refine ⟨[], rest, rfl, by simpa using hacc, ?_⟩
        intro rpre2 rsuf2 _ hlt
        exact absurd hlt (by simp)
      | none =>
        rw [hacc] at hscan
        obtain ⟨rpre, rsuf, hsplit, hfound, hmin⟩ := ih ('-' :: acc) sp hscan
        refine ⟨'-' :: rpre, rsuf, by simp [hsplit], ?_, ?_⟩
        · simpa [List.append_assoc] using hfound
        · intro rpre2 rsuf2 hsplit2 hlt
          cases rpre2 with
          | nil => simpa using hacc
          | cons c0 rpre3 =>
            rw [List.cons_append] at hsplit2
            obtain ⟨hc0, hrest2⟩ := List.cons.inj hsplit2
            have := hmin rpre3 rsuf2 hrest2 (by simpa using Nat.lt_of_succ_lt_succ (by simpa using hlt))
            rw [← hc0]
            simpa [List.append_assoc] using this
    · simp only [hyphenScanAux, if_neg hc] at hscan
      obtain ⟨rpre, rsuf, hsplit, hfound, hmin⟩ := ih (c :: acc) sp hscan
      refine ⟨c :: rpre, rsuf, by simp [hsplit], ?_, ?_⟩
      · simpa [List.append_assoc] using hfound
      · intro rpre2 rsuf2 hsplit2 hlt
        cases rpre2 with
        | nil =>
          rw [List.nil_append] at hsplit2
          exact absurd (List.cons.inj hsplit2).1 hc
        | cons c0 rpre3 =>
          rw [List.cons_append] at hsplit2
          obtain ⟨hc0, hrest2⟩ := List.cons.inj hsplit2
          have := hmin rpre3 rsuf2 hrest2 (by simpa using Nat.lt_of_succ_lt_succ (by simpa using hlt))
          rw [← hc0]
          simpa [List.append_assoc] using this

/-- C6 amended: token resolution tries exact id match, then first exact
name match in slice order, then the name-ID fallback; the fallback scans the
hyphens of the token from the rightmost leftwards and resolves at the first
hyphen whose suffix is a known space id (so the shortest resolving suffix
wins, not only the one after the last hyphen), and a token for which no rule
applies — in particular no hyphen split has a known-id suffix — is a lookup
error. -/
theorem C6_token_resolution_amended (spaces : List Space) (tok : String) :
    (∀ sp, spaceById spaces tok = some sp →
      resolveSpaceFilterPure spaces tok = .ok (sp.id, sp.name)) ∧
    (spaceById spaces tok = none →
      ∀ sp, spaces.find? (fun s => s.name = tok) = some sp →
      resolveSpaceFilterPure spaces tok = .ok (sp.id, sp.name)) ∧
    (spaceById spaces tok = none →
      spaces.find? (fun s => s.name = tok) = none →
      ∀ sp, hyphenScanAux (spaceById spaces) tok.data.reverse [] = some sp →
        resolveSpaceFilterPure spaces tok = .ok (sp.id, sp.name) ∧
        ∃ pre suf, tok.data = pre ++ '-' :: suf ∧
          spaceById spaces (String.mk suf) = some sp ∧
          (∀ pre2 suf2, tok.data = pre2 ++ '-' :: suf2 → suf2.length < suf.length →
            spaceById spaces (String.mk suf2) = none)) ∧
    (spaceById spaces tok = none →
      spaces.find? (fun s => s.name = tok) = none →
      hyphenScanAux (spaceById spaces) tok.data.reverse [] = none →
      resolveSpaceFilterPure spaces tok = .error ("space not found: " ++ tok) ∧
      (∀ pre suf, tok.data = pre ++ '-' :: suf →
        spaceById spaces (String.mk suf) = none)) := by
  refine ⟨?_, ?_, ?_, ?_⟩
  · intro sp h
    simp [resolveSpaceFilterPure, h]
  · intro h1 sp h2
    simp [resolveSpaceFilterPure, h1, h2]
  · intro h1 h2 sp h3
    refine ⟨by simp [resolveSpaceFilterPure, h1, h2, h3], ?_⟩
    obtain ⟨rpre, rsuf, hsplit, hfound, hmin⟩ := hyphenScanAux_some_split (spaceById spaces) _ _ sp h3
    have hchars : tok.data = rsuf.reverse ++ '-' :: rpre.reverse := by
      have h4 := congrArg List.reverse hsplit
      simpa [List.reverse_append] using h4
    refine ⟨rsuf.reverse, rpre.reverse, hchars, by simpa using hfound, ?_⟩
    intro pre2 suf2 hsplit2 hlt
    have hrevsplit : tok.data.reverse = suf2.reverse ++ '-' :: pre2.reverse := by
      rw [hsplit2]
      simp [List.reverse_append]
    have h5 := hmin suf2.reverse pre2.reverse hrevsplit (by simpa using hlt)
    simpa using h5
  · intro h1 h2 h3
    refine ⟨by simp [resolveSpaceFilterPure, h1, h2, h3], ?_⟩
    intro pre suf hsplit
    have hrevsplit : tok.data.reverse = suf.reverse ++ '-' :: pre.reverse := by
      rw [hsplit]
      simp [List.reverse_append]
    have h4 := hyphenScanAux_none_split (spaceById spaces) _ _ h3 suf.reverse pre.reverse hrevsplit
    simpa using h4

/-- C6 counterexample: for the single space with id "b-c" and token
"a-b-c", the suffix after the last hyphen ("c") is not a known id, so the
claimed rule fails to resolve, yet the source scans on and resolves at the
first hyphen via suffix "b-c". -/
theorem C6_token_resolution_counterexample :
    resolveSpaceFilterPure [mkSpace "b-c" "bname" none] "a-b-c" = .ok ("b-c", "bname") ∧
    claimResolveSpaceFilter [mkSpace "b-c" "bname" none] "a-b-c" =
      .error ("space not found: a-b-c") := by
  decide

/-- C6 witness: exact-id resolution on a concrete space list. -/
theorem C6_token_resolution_witness :
    resolveSpaceFilterPure exampleSpaces "infra" = .ok ("infra", "infra") :=
  (C6_token_resolution_amended exampleSpaces "infra").1 (mkSpace "infra" "infra" (some "root")) (by decide)

theorem descStep_cases (inc : List String) (sp : Space) :
    descStep inc sp = inc ∨
    ∃ p, sp.parentSpace = some p ∧ p ∈ inc ∧ sp.id ∉ inc ∧
      descStep inc sp = sp.id :: inc := by
  unfold descStep
  cases hps : sp.parentSpace with
  | none => exact Or.inl rfl
  | some p =>
    by_cases hcond : p ∈ inc ∧ sp.id ∉ inc
    · exact Or.inr ⟨p, rfl, hcond.1, hcond.2, if_pos hcond⟩
    · exact Or.inl (if_neg hcond)

theorem descStep_mem_of_parent (inc : List String) (sp : Space) (p : String)
    (hps : sp.parentSpace = some p) (hp : p ∈ inc) : sp.id ∈ descStep inc sp := by
  unfold descStep
  rw [hps]
  show sp.id ∈ (if p ∈ inc ∧ sp.id ∉ inc then sp.id :: inc else inc)
  by_cases hcond : p ∈ inc ∧ sp.id ∉ inc
  · rw [if_pos hcond]
    exact List.mem_cons_self _ _
  · rw [if_neg hcond]
    by_cases hid : sp.id ∈ inc
    · exact hid
    · exact absurd ⟨hp, hid⟩ hcond

theorem descPass_decomp : ∀ (l : List Space) (inc : List String),
    ∃ pre, l.foldl descStep inc = pre ++ inc ∧
      ∀ x ∈ pre, (∃ sp, sp ∈ l ∧ sp.id = x) ∧ x ∉ inc := by
  intro l
  induction l with
  | nil => intro inc; exact ⟨[], rfl, by simp⟩
  | cons sp rest ih =>
    intro inc
    simp only [List.foldl_cons]
    rcases descStep_cases inc sp with hstep | ⟨p, hps, hpmem, hnid, hstep⟩
    · rw [hstep]
      obtain ⟨pre, hpre, hprop⟩ := ih inc
      refine ⟨pre, hpre, fun x hx => ?_⟩
      obtain ⟨⟨s, hs, hid⟩, hnin⟩ := hprop x hx
      exact ⟨⟨s, List.mem_cons_of_mem sp hs, hid⟩, hnin⟩
    · rw [hstep]
      obtain ⟨pre, hpre, hprop⟩ := ih (sp.id :: inc)
      refine ⟨pre ++ [sp.id], by rw [hpre, List.append_assoc]; rfl, fun x hx => ?_⟩
      rcases List.mem_append.mp hx with hx1 | hx2
      · obtain ⟨⟨s, hs, hid⟩, hnin⟩ := hprop x hx1
        refine ⟨⟨s, List.mem_cons_of_mem sp hs, hid⟩, fun hmem => hnin ?_⟩
        exact List.mem_cons_of_mem _ hmem
      · obtain rfl := List.mem_singleton.mp hx2
        exact ⟨⟨sp, List.mem_cons_self sp rest, rfl⟩, hnid⟩

theorem descPass_superset (spaces : List Space) (inc : List String) :
    ∀ x ∈ inc, x ∈ descPass spaces inc := by
  obtain ⟨pre, hpre, _⟩ := descPass_decomp spaces inc
  intro x hx
  rw [descPass, hpre]
  exact List.mem_append_right pre hx

theorem descPass_of_length_eq (spaces : List Space) (inc : List String)
    (h : (descPass spaces inc).length = inc.length) : descPass spaces inc = inc := by
  obtain ⟨pre, hpre, _⟩ := descPass_decomp spaces inc
  rw [descPass] at h ⊢
  rw [hpre] at h ⊢
  rw [List.length_append] at h
  have hz : pre.length = 0 := by omega
  simp [List.length_eq_zero.mp hz]

theorem descPass_sound (P : String → Prop) :
    ∀ (l : List Space) (inc : List String),
    (∀ sp ∈ l, ∀ p, sp.parentSpace = some p → P p → P sp.id) →
    (∀ x ∈ inc, P x) → ∀ x ∈ l.foldl descStep inc, P x := by
  intro l
  induction l with
  | nil => intro inc _ hinc; simpa using hinc
  | cons sp rest ih =>
    intro inc hP hinc
    simp only [List.foldl_cons]
    refine ih (descStep inc sp) (fun s hs => hP s (List.mem_cons_of_mem sp hs)) ?_
    intro x hx
    rcases descStep_cases inc sp with hstep | ⟨p, hps, hpmem, hnid, hstep⟩
    · rw [hstep] at hx
      exact hinc x hx
    · rw [hstep] at hx
      rcases List.mem_cons.mp hx with rfl | hx2
      · exact hP sp (List.mem_cons_self sp rest) p hps (hinc p hpmem)
      · exact hinc x hx2

theorem descFix_sound (spaces : List Space) (P : String → Prop)
    (hP : ∀ sp ∈ spaces, ∀ p, sp.parentSpace = some p → P p → P sp.id) :
    ∀ (fuel : Nat) (inc : List String),
    (∀ x ∈ inc, P x) → ∀ x ∈ descFix spaces fuel inc, P x := by
  intro fuel
  induction fuel with
  | zero => intro inc hinc; simpa [descFix] using hinc
  | succ f ih =>
    intro inc hinc x hx
    rw [descFix] at hx
    by_cases hlen : (descPass spaces inc).length = inc.length
    · rw [if_pos hlen] at hx
      exact hinc x hx
    · rw [if_neg hlen] at hx
      exact ih (descPass spaces inc) (descPass_sound P spaces inc hP hinc) x hx

theorem descStep_superset (inc : List String) (sp : Space) :
    ∀ x ∈ inc, x ∈ descStep inc sp := by
  rcases descStep_cases inc sp with hstep | ⟨p, _, _, _, hstep⟩ <;> rw [hstep] <;>
    intro x hx
  · exact hx
  · exact List.mem_cons_of_mem _ hx

theorem foldl_descStep_superset (l : List Space) (inc : List String) :
    ∀ x ∈ inc, x ∈ l.foldl descStep inc := by
  obtain ⟨pre, hpre, _⟩ := descPass_decomp l inc
  intro x hx
  rw [hpre]
  exact List.mem_append_right pre hx

theorem descPass_mem_of_parent :
    ∀ (l : List Space) (inc : List String) (sp : Space) (p : String),
    sp ∈ l → sp.parentSpace = some p → p ∈ inc → sp.id ∈ l.foldl descStep inc := by
  intro l
  induction l with
  | nil => intro inc sp p hmem; exact absurd hmem (by simp)
  | cons hd rest ih =>
    intro inc sp p hmem hps hp
    simp only [List.foldl_cons]
    rcases List.mem_cons.mp hmem with rfl | hmem2
    · exact foldl_descStep_superset rest (descStep inc sp) sp.id
        (descStep_mem_of_parent inc sp p hps hp)
    · exact ih (descStep inc hd) sp p hmem2 hps (descStep_superset inc hd p hp)

theorem length_filter_le_of_imp {α : Type} (p q : α → Bool) :
    ∀ (l : List α), (∀ a ∈ l, p a = true → q a = true) →
    (l.filter p).length ≤ (l.filter q).length := by
  intro l
  induction l with
  | nil => intro _; exact Nat.le_refl 0
  | cons a t ih =>
    intro h
    have ht := ih fun x hx => h x (List.mem_cons_of_mem a hx)
    cases hpa : p a with
    | true =>
      have hqa := h a (List.mem_cons_self a t) hpa
      simp [List.filter_cons, hpa, hqa]
      omega
    | false =>
      cases hqa : q a with
      | true => simp [List.filter_cons, hpa, hqa]; omega
      | false => simp [List.filter_cons, hpa, hqa]; omega

theorem length_filter_lt_of_witness {α : Type} (p q : α → Bool) :
    ∀ (l : List α), (∀ a ∈ l, p a = true → q a = true) →
    ∀ x ∈ l, q x = true → p x = false →
    (l.filter p).length < (l.filter q).length := by
  intro l
  induction l with
  | nil => intro _ x hx; exact absurd hx (by simp)
  | cons a t ih =>
    intro h x hx hqx hpx
    have himp := fun y hy => h y (List.mem_cons_of_mem a hy)
    rcases List.mem_cons.mp hx with rfl | hx2
    · simp [List.filter_cons, hpx, hqx]
      have := length_filter_le_of_imp p q t himp
      omega
    · cases hpa : p a with
      | true =>
        have hqa := h a (List.mem_cons_self a t) hpa
        simp [List.filter_cons, hpa, hqa]
        exact ih himp x hx2 hqx hpx
      | false =>
        cases hqa : q a with
        | true =>
          simp [List.filter_cons, hpa, hqa]
          have := ih himp x hx2 hqx hpx
          omega
        | false =>
          simp [List.filter_cons, hpa, hqa]
          exact ih himp x hx2 hqx hpx

theorem descFix_fixpoint (spaces : List Space) :
    ∀ (fuel : Nat) (inc : List String),
    (spaces.filter (fun sp => sp.id ∉ inc)).length < fuel →
    descPass spaces (descFix spaces fuel inc) = descFix spaces fuel inc := by
  intro fuel
  induction fuel with
  | zero => intro inc h; exact absurd h (by omega)
  | succ f ih =>
    intro inc hmiss
    rw [descFix]
    by_cases hlen : (descPass spaces inc).length = inc.length
    · rw [if_pos hlen]
      exact descPass_of_length_eq spaces inc hlen
    · rw [if_neg hlen]
      refine ih (descPass spaces inc) ?_
      obtain ⟨pre, hpre, hprop⟩ := descPass_decomp spaces inc
      have hne : pre ≠ [] := by
        intro hnil
        rw [descPass, hpre, hnil] at hlen
        exact hlen rfl
      obtain ⟨x, hxpre⟩ := List.exists_mem_of_ne_nil pre hne
      obtain ⟨⟨sp, hspmem, hspid⟩, hxnin⟩ := hprop x hxpre
      have hxin : x ∈ descPass spaces inc := by
        rw [descPass, hpre]
        exact List.mem_append_left inc hxpre
      have hlt := length_filter_lt_of_witness
        (fun sp => decide (sp.id ∉ descPass spaces inc))
        (fun sp => decide (sp.id ∉ inc)) spaces
        (fun a _ ha => by
          simp only [decide_eq_true_eq] at ha ⊢
          intro hmem
          exact ha (descPass_superset spaces inc a.id hmem))
        sp hspmem
        (by simp only [decide_eq_true_eq]; rw [hspid]; exact hxnin)
        (by simp only [decide_eq_false_iff_not, Decidable.not_not]; rw [hspid]; exact hxin)
      calc (spaces.filter (fun sp => sp.id ∉ descPass spaces inc)).length
          < (spaces.filter (fun sp => sp.id ∉ inc)).length := hlt
        _ ≤ f := by omega

theorem descFix_superset (spaces : List Space) :
    ∀ (fuel : Nat) (inc : List String), ∀ x ∈ inc, x ∈ descFix spaces fuel inc := by
  intro fuel
  induction fuel with
  | zero => intro inc x hx; simpa [descFix] using hx
  | succ f ih =>
    intro inc x hx
    rw [descFix]
    by_cases hlen : (descPass spaces inc).length = inc.length
    · rw [if_pos hlen]; exact hx
    · rw [if_neg hlen]
      exact ih (descPass spaces inc) x (descPass_superset spaces inc x hx)

theorem descFix_mem_iff (spaces : List Space) (seed : List String) (x : String) :
    x ∈ descFix spaces (spaces.length + 1) seed ↔
      ∃ a, a ∈ seed ∧ Relation.ReflTransGen (childStepRel spaces) a x := by
  constructor
  · intro hx
    refine descFix_sound spaces (fun y => ∃ a, a ∈ seed ∧ Relation.ReflTransGen (childStepRel spaces) a y)
      ?_ (spaces.length + 1) seed (fun y hy => ⟨y, hy, Relation.ReflTransGen.refl⟩) x hx
    intro sp hsp p hps ⟨a, ha, hrtg⟩
    exact ⟨a, ha, hrtg.tail ⟨sp, hsp, rfl, hps⟩⟩
  · rintro ⟨a, ha, hrtg⟩
    induction hrtg with
    | refl => exact descFix_superset spaces (spaces.length + 1) seed a ha
    | tail hab hbc ih2 =>
      obtain ⟨sp, hspmem, hspid, hps⟩ := hbc
      have hfix := descFix_fixpoint spaces (spaces.length + 1) seed
        (Nat.lt_succ_of_le (List.length_filter_le _ spaces))
      rw [← hspid, ← hfix]
      exact descPass_mem_of_parent spaces (descFix spaces (spaces.length + 1) seed) sp _ hspmem hps ih2

theorem walkUpF_eq_base (sm : String → Option Space) (g : Nat) (rem : List String)
    (c : String) (hbase : c = "" ∨ c = "root") :
    walkUpF sm (g + 1) rem c = ([], true) := by
  rw [walkUpF, if_pos hbase]

theorem walkUpF_eq_smnone (sm : String → Option Space) (g : Nat) (rem : List String)
    (c : String) (hbase : ¬(c = "" ∨ c = "root")) (hsm : sm c = none) :
    walkUpF sm (g + 1) rem c = ([], true) := by
  rw [walkUpF, if_neg hbase, hsm]

theorem walkUpF_eq_notmem (sm : String → Option Space) (g : Nat) (rem : List String)
    (c : String) (sp : Space) (hbase : ¬(c = "" ∨ c = "root"))
    (hsm : sm c = some sp) (hrem : c ∉ rem) :
    walkUpF sm (g + 1) rem c = ([], false) := by
  rw [walkUpF, if_neg hbase, hsm]
  show (if c ∈ rem then
    (match sp.parentSpace with
     | none => (([(c, none)] : List (String × Option String)), true)
     | some p =>
       ((c, some p) :: (walkUpF sm g (rem.erase c) p).1,
         (walkUpF sm g (rem.erase c) p).2))
    else ([], false)) = ([], false)
  rw [if_neg hrem]

theorem walkUpF_eq_pnone (sm : String → Option Space) (g : Nat) (rem : List String)
    (c : String) (sp : Space) (hbase : ¬(c = "" ∨ c = "root")) (hrem : c ∈ rem)
    (hsm : sm c = some sp) (hps : sp.parentSpace = none) :
    walkUpF sm (g + 1) rem c = ([(c, none)], true) := by
  rw [walkUpF, if_neg hbase, hsm]
  show (if c ∈ rem then
    (match sp.parentSpace with
     | none => (([(c, none)] : List (String × Option String)), true)
     | some p =>
       ((c, some p) :: (walkUpF sm g (rem.erase c) p).1,
         (walkUpF sm g (rem.erase c) p).2))
    else ([], false)) = ([(c, none)], true)
  rw [if_pos hrem, hps]

theorem walkUpF_eq_psome (sm : String → Option Space) (g : Nat) (rem : List String)
    (c : String) (sp : Space) (p : String) (hbase : ¬(c = "" ∨ c = "root"))
    (hrem : c ∈ rem) (hsm : sm c = some sp) (hps : sp.parentSpace = some p) :
    walkUpF sm (g + 1) rem c =
      ((c, some p) :: (walkUpF sm g (rem.erase c) p).1,
        (walkUpF sm g (rem.erase c) p).2) := by
  rw [walkUpF, if_neg hbase, hsm]
  show (if c ∈ rem then
    (match sp.parentSpace with
     | none => (([(c, none)] : List (String × Option String)), true)
     | some p =>
       ((c, some p) :: (walkUpF sm g (rem.erase c) p).1,
         (walkUpF sm g (rem.erase c) p).2))
    else ([], false)) = _
  rw [if_pos hrem, hps]

theorem walkUpF_sound (sm : String → Option Space) :
    ∀ (f : Nat) (rem : List String) (c : String) (pr : String × Option String),
    pr ∈ (walkUpF sm f rem c).1 →
    Relation.ReflTransGen (parentStepRel sm) c pr.1 ∧ validWalkNode sm pr.1 := by
  intro f
  induction f with
  | zero => intro rem c pr hpr; exact absurd hpr (by simp [walkUpF])
  | succ g ih =>
    intro rem c pr hpr
    by_cases hbase : c = "" ∨ c = "root"
    · rw [walkUpF_eq_base sm g rem c hbase] at hpr
      exact absurd hpr (by simp)
    · have hbase2 : c ≠ "" ∧ c ≠ "root" := by
        constructor <;> intro hc <;> exact hbase (by simp [hc])
      cases hsm : sm c with
      | none =>
        rw [walkUpF_eq_smnone sm g rem c hbase hsm] at hpr
        exact absurd hpr (by simp)
      | some sp =>
        by_cases hrem : c ∈ rem
        · cases hps : sp.parentSpace with
          | none =>
            rw [walkUpF_eq_pnone sm g rem c sp hbase hrem hsm hps] at hpr
            obtain rfl := List.mem_singleton.mp hpr
            exact ⟨Relation.ReflTransGen.refl, hbase2.1, hbase2.2, ⟨sp, hsm⟩⟩
          | some p =>
            rw [walkUpF_eq_psome sm g rem c sp p hbase hrem hsm hps] at hpr
            rcases List.mem_cons.mp hpr with rfl | hpr2
            · exact ⟨Relation.ReflTransGen.refl, hbase2.1, hbase2.2, ⟨sp, hsm⟩⟩
            · obtain ⟨hrtg, hvalid⟩ := ih (rem.erase c) p pr hpr2
              exact ⟨Relation.ReflTransGen.head ⟨hbase2.1, hbase2.2, sp, hsm, hps⟩ hrtg, hvalid⟩
        · rw [walkUpF_eq_notmem sm g rem c sp hbase hsm hrem] at hpr
          exact absurd hpr (by simp)

theorem walkUpF_complete (sm : String → Option Space) :
    ∀ (f : Nat) (rem : List String) (c : String),
    (walkUpF sm f rem c).2 = true →
    ∀ x, Relation.ReflTransGen (parentStepRel sm) c x → validWalkNode sm x →
    x ∈ (walkUpF sm f rem c).1.map Prod.fst := by
  intro f
  induction f with
  | zero =>
    intro rem c hflag
    exact absurd hflag (by simp [walkUpF])
  | succ g ih =>
    intro rem c hflag x hrtg hvalid
    by_cases hbase : c = "" ∨ c = "root"
    · exfalso
      rcases Relation.ReflTransGen.cases_head hrtg with heq | ⟨b, hstep, _⟩
      · rcases hbase with rfl | rfl
        · exact hvalid.1 heq.symm
        · exact hvalid.2.1 heq.symm
      · rcases hbase with rfl | rfl
        · exact hstep.1 rfl
        · exact hstep.2.1 rfl
    · cases hsm : sm c with
      | none =>
        exfalso
        rcases Relation.ReflTransGen.cases_head hrtg with heq | ⟨b, hstep, _⟩
        · obtain ⟨sp, hsp⟩ := hvalid.2.2
          rw [← heq, hsm] at hsp
          exact Option.noConfusion hsp
        · obtain ⟨sp, hsp, _⟩ := hstep.2.2
          rw [hsm] at hsp
          exact Option.noConfusion hsp
      | some sp =>
        by_cases hrem : c ∈ rem
        · cases hps : sp.parentSpace with
          | none =>
            rw [walkUpF_eq_pnone sm g rem c sp hbase hrem hsm hps]
            rcases Relation.ReflTransGen.cases_head hrtg with heq | ⟨b, hstep, _⟩
            · simp [← heq]
            · exfalso
              obtain ⟨sp2, hsp2, hps2⟩ := hstep.2.2
              rw [hsm] at hsp2
              obtain rfl := Option.some.inj hsp2
              rw [hps] at hps2
              exact Option.noConfusion hps2
          | some p =>
            have hflag2 : (walkUpF sm g (rem.erase c) p).2 = true := by
              rw [walkUpF_eq_psome sm g rem c sp p hbase hrem hsm hps] at hflag
              exact hflag
            rw [walkUpF_eq_psome sm g rem c sp p hbase hrem hsm hps]
            rcases Relation.ReflTransGen.cases_head hrtg with heq | ⟨b, hstep, hrtg2⟩
            · simp [← heq]
            · obtain ⟨sp2, hsp2, hps2⟩ := hstep.2.2
              rw [hsm] at hsp2
              obtain rfl := Option.some.inj hsp2
              rw [hps] at hps2
              obtain rfl := Option.some.inj hps2
              have hmem := ih (rem.erase c) p hflag2 x hrtg2 hvalid
              simp only [List.map_cons]
              exact List.mem_cons_of_mem _ hmem
        · exfalso
          rw [walkUpF_eq_notmem sm g rem c sp hbase hsm hrem] at hflag
          exact Bool.noConfusion hflag

theorem walkUpF_congr (sm sm2 : String → Option Space) (Q : String → Prop)
    (hQsm : ∀ x, Q x → sm2 x = sm x) (hNQ : ∀ x, ¬ Q x → sm2 x = none) :
    ∀ (f1 : Nat) (rem1 : List String) (f2 : Nat) (rem2 : List String) (c : String),
    f1 = rem1.length + 1 → f2 = rem2.length + 1 →
    (∀ x, Q x → rem1.count x = rem2.count x) →
    (∀ pr ∈ (walkUpF sm f1 rem1 c).1, Q pr.1) →
    (walkUpF sm2 f2 rem2 c).1 = (walkUpF sm f1 rem1 c).1 := by
  intro f1
  induction f1 with
  | zero =>
    intro rem1 f2 rem2 c h1 _ _ _
    exact absurd h1 (by omega)
  | succ g ih =>
    intro rem1 f2 rem2 c h1 h2 hcount hQres
    obtain ⟨g2, rfl⟩ : ∃ g2, f2 = g2 + 1 := ⟨rem2.length, h2⟩
    by_cases hbase : c = "" ∨ c = "root"
    · rw [walkUpF_eq_base sm g rem1 c hbase, walkUpF_eq_base sm2 g2 rem2 c hbase]
    · cases hsm : sm c with
      | none =>
        rw [walkUpF_eq_smnone sm g rem1 c hbase hsm]
        by_cases hQ : Q c
        · rw [walkUpF_eq_smnone sm2 g2 rem2 c hbase ((hQsm c hQ).trans hsm)]
        · rw [walkUpF_eq_smnone sm2 g2 rem2 c hbase (hNQ c hQ)]
      | some sp =>
        by_cases hrem : c ∈ rem1
        · cases hps : sp.parentSpace with
          | none =>
            rw [walkUpF_eq_pnone sm g rem1 c sp hbase hrem hsm hps]
            have hQ : Q c := by
              have := hQres (c, none)
              rw [walkUpF_eq_pnone sm g rem1 c sp hbase hrem hsm hps] at this
              exact this (List.mem_singleton.mpr rfl)
            have hrem2 : c ∈ rem2 := by
              have hc := hcount c hQ
              have hpos : 0 < rem1.count c := List.count_pos_iff.mpr hrem
              exact List.count_pos_iff.mp (by omega)
            rw [walkUpF_eq_pnone sm2 g2 rem2 c sp hbase hrem2 ((hQsm c hQ).trans hsm) hps]
          | some p =>
            have hres := walkUpF_eq_psome sm g rem1 c sp p hbase hrem hsm hps
            rw [hres]
            have hQ : Q c := by
              have := hQres (c, some p)
              rw [hres] at this
              exact this (List.mem_cons_self _ _)
            have hrem2 : c ∈ rem2 := by
              have hc := hcount c hQ
              have hpos : 0 < rem1.count c := List.count_pos_iff.mpr hrem
              exact List.count_pos_iff.mp (by omega)
            rw [walkUpF_eq_psome sm2 g2 rem2 c sp p hbase hrem2 ((hQsm c hQ).trans hsm) hps]
            have hpos1 : 0 < rem1.length := List.length_pos.mpr (List.ne_nil_of_mem hrem)
            have hpos2 : 0 < rem2.length := List.length_pos.mpr (List.ne_nil_of_mem hrem2)
            have hsub := ih (rem1.erase c) g2 (rem2.erase c) p
              (by rw [List.length_erase_of_mem hrem]; omega)
              (by rw [List.length_erase_of_mem hrem2]; omega)
              (fun x hQx => by
                rw [List.count_erase, List.count_erase, hcount x hQx])
              (fun pr hpr => by
                refine hQres pr ?_
                rw [hres]
                exact List.mem_cons_of_mem _ hpr)
            rw [hsub]
        · rw [walkUpF_eq_notmem sm g rem1 c sp hbase hsm hrem]
          by_cases hQ : Q c
          · have hrem2 : c ∉ rem2 := by
              intro hmem
              have hc := hcount c hQ
              have h0 : rem1.count c = 0 := by
                cases hcnt : rem1.count c with
                | zero => rfl
                | succ n =>
                  exact absurd (List.count_pos_iff.mp (by omega)) hrem
              have hpos : 0 < rem2.count c := List.count_pos_iff.mpr hmem
              omega
            rw [walkUpF_eq_notmem sm2 g2 rem2 c sp hbase ((hQsm c hQ).trans hsm) hrem2]
          · rw [walkUpF_eq_smnone sm2 g2 rem2 c hbase (hNQ c hQ)]

theorem golookup_filter_key {α : Type} (key : α → String) (p : α → Bool) :
    ∀ (l : List α) (k : String), (∀ x ∈ l, key x = k → p x = true) →
    golookup key (l.filter p) k = golookup key l k := by
  intro l
  induction l with
  | nil => intro k _; rfl
  | cons a t ih =>
    intro k h
    have ht := ih k fun x hx => h x (List.mem_cons_of_mem a hx)
    cases hpa : p a with
    | true =>
      rw [List.filter_cons_of_pos hpa]
      simp only [golookup, ht]
    | false =>
      rw [List.filter_cons_of_neg (by simp [hpa])]
      have hka : key a ≠ k := fun hk => by
        rw [h a (List.mem_cons_self a t) hk] at hpa
        exact Bool.noConfusion hpa
      simp only [golookup, ht]
      cases golookup key t k with
      | some r => rfl
      | none => simp [hka]

theorem count_map_filter_key (p : Space → Bool) :
    ∀ (l : List Space) (x : String), (∀ sp ∈ l, sp.id = x → p sp = true) →
    ((l.filter p).map Space.id).count x = (l.map Space.id).count x := by
  intro l
  induction l with
  | nil => intro x _; rfl
  | cons a t ih =>
    intro x h
    have ht := ih x fun sp hsp => h sp (List.mem_cons_of_mem a hsp)
    cases hpa : p a with
    | true =>
      rw [List.filter_cons_of_pos hpa]
      simp only [List.map_cons, List.count_cons, ht]
    | false =>
      rw [List.filter_cons_of_neg (by simp [hpa])]
      have hka : a.id ≠ x := fun hk => by
        rw [h a (List.mem_cons_self a t) hk] at hpa
        exact Bool.noConfusion hpa
      simp only [List.map_cons, List.count_cons, ht]
      simp [hka]

theorem foldl_append_mem_iff {α : Type} (g : α → List String) :
    ∀ (l : List α) (init : List String) (x : String),
    x ∈ l.foldl (fun acc a => acc ++ g a) init ↔ x ∈ init ∨ ∃ a ∈ l, x ∈ g a := by
  intro l
  induction l with
  | nil => intro init x; simp
  | cons a t ih =>
    intro init x
    simp only [List.foldl_cons]
    rw [ih (init ++ g a) x]
    simp only [List.mem_append, List.mem_cons]
    constructor
    · rintro ((hx | hx) | ⟨b, hb, hg⟩)
      · exact Or.inl hx
      · exact Or.inr ⟨a, Or.inl rfl, hx⟩
      · exact Or.inr ⟨b, Or.inr hb, hg⟩
    · rintro (hx | ⟨b, (rfl | hb), hg⟩)
      · exact Or.inl (Or.inl hx)
      · exact Or.inl (Or.inr hg)
      · exact Or.inr ⟨b, hb, hg⟩

theorem foldl_ownermatch_mem_iff (h : String → Option String) (k : String → List String) :
    ∀ (l : List String) (init : List String) (x : String),
    x ∈ l.foldl
      (fun acc cid => match h cid with | some w => acc ++ k w | none => acc) init ↔
      x ∈ init ∨ ∃ cid ∈ l, ∃ w, h cid = some w ∧ x ∈ k w := by
  intro l
  induction l with
  | nil => intro init x; simp
  | cons a t ih =>
    intro init x
    simp only [List.foldl_cons]
    cases ha : h a with
    | none =>
      rw [ih init x]
      constructor
      · rintro (hx | ⟨cid, hc, w, hw, hk⟩)
        · exact Or.inl hx
        · exact Or.inr ⟨cid, List.mem_cons_of_mem a hc, w, hw, hk⟩
      · rintro (hx | ⟨cid, hc, w, hw, hk⟩)
        · exact Or.inl hx
        · rcases List.mem_cons.mp hc with rfl | hc2
          · rw [ha] at hw
            exact Option.noConfusion hw
          · exact Or.inr ⟨cid, hc2, w, hw, hk⟩
    | some w0 =>
      rw [ih (init ++ k w0) x]
      simp only [List.mem_append]
      constructor
      · rintro ((hx | hx) | ⟨cid, hc, w, hw, hk⟩)
        · exact Or.inl hx
        · exact Or.inr ⟨a, List.mem_cons_self a t, w0, ha, hx⟩
        · exact Or.inr ⟨cid, List.mem_cons_of_mem a hc, w, hw, hk⟩
      · rintro (hx | ⟨cid, hc, w, hw, hk⟩)
        · exact Or.inl (Or.inl hx)
        · rcases List.mem_cons.mp hc with rfl | hc2
          · rw [ha] at hw
            obtain rfl := Option.some.inj hw
            exact Or.inl (Or.inr hk)
          · exact Or.inr ⟨cid, hc2, w, hw, hk⟩

theorem seed_mem_iff (m : Manifest) (t : String)
    (hw : targetWalkCompleted m t = true) (x : String) :
    x ∈ filterIncludedSeed m t ↔ SeedSpec m t x := by
  unfold filterIncludedSeed SeedSpec AncChainMem
  constructor
  · intro hx
    rcases List.mem_cons.mp hx with rfl | hx2
    · exact Or.inl rfl
    · obtain ⟨pr, hpr, hfst⟩ := List.mem_map.mp hx2
      obtain ⟨hrtg, hvalid⟩ := walkUpF_sound (spaceById m.spaces) _ _ t pr hpr
      rw [← hfst]
      exact Or.inr ⟨hrtg, hvalid⟩
  · rintro (rfl | ⟨hrtg, hvalid⟩)
    · exact List.mem_cons_self _ _
    · refine List.mem_cons_of_mem _ ?_
      exact walkUpF_complete (spaceById m.spaces) _ _ t hw x hrtg hvalid

theorem base_mem_iff (m : Manifest) (t : String)
    (hw : targetWalkCompleted m t = true) (x : String) :
    x ∈ filterIncludedBase m t ↔ BaseSpec m t x := by
  unfold filterIncludedBase BaseSpec
  rw [descFix_mem_iff]
  exact exists_congr fun a =>
    and_congr_left fun _ => seed_mem_iff m t hw a

theorem requiredContextIDs_mem_iff (m : Manifest) (t : String)
    (hw : targetWalkCompleted m t = true) (r : String) :
    r ∈ requiredContextIDs m t ↔ ReferencedContextId m t r := by
  unfold requiredContextIDs ReferencedContextId filterStacksIncluded
  refine Iff.trans
    (foldl_append_mem_iff (fun (st : Stack) => st.attachedContexts.map ContextAttachment.contextId)
      _ [] r) ?_
  constructor
  · rintro (hx | ⟨st, hst, hmap⟩)
    · exact absurd hx (by simp)
    · obtain ⟨hstm, hpred⟩ := List.mem_filter.mp hst
      obtain ⟨att, hatt, hattid⟩ := List.mem_map.mp hmap
      refine ⟨st, hstm, ?_, att, hatt, hattid⟩
      rw [← base_mem_iff m t hw]
      simpa using hpred
  · rintro ⟨st, hstm, hbase, att, hatt, hattid⟩
    have hb : decide (st.space ∈ filterIncludedBase m t) = true := by
      simp only [decide_eq_true_eq]
      exact (base_mem_iff m t hw st.space).mpr hbase
    exact Or.inr ⟨st, List.mem_filter.mpr ⟨hstm, hb⟩,
      List.mem_map.mpr ⟨att, hatt, hattid⟩⟩

theorem requiredPolicyIDs_mem_iff (m : Manifest) (t : String)
    (hw : targetWalkCompleted m t = true) (r : String) :
    r ∈ requiredPolicyIDs m t ↔ ReferencedPolicyId m t r := by
  unfold requiredPolicyIDs ReferencedPolicyId filterStacksIncluded
  refine Iff.trans
    (foldl_append_mem_iff (fun (st : Stack) => st.attachedPolicies.map PolicyAttachment.policyId)
      _ [] r) ?_
  constructor
  · rintro (hx | ⟨st, hst, hmap⟩)
    · exact absurd hx (by simp)
    · obtain ⟨hstm, hpred⟩ := List.mem_filter.mp hst
      obtain ⟨att, hatt, hattid⟩ := List.mem_map.mp hmap
      refine ⟨st, hstm, ?_, att, hatt, hattid⟩
      rw [← base_mem_iff m t hw]
      simpa using hpred
  · rintro ⟨st, hstm, hbase, att, hatt, hattid⟩
    have hb : decide (st.space ∈ filterIncludedBase m t) = true := by
      simp only [decide_eq_true_eq]
      exact (base_mem_iff m t hw st.space).mpr hbase
    exact Or.inr ⟨st, List.mem_filter.mpr ⟨hstm, hb⟩,
      List.mem_map.mpr ⟨att, hatt, hattid⟩⟩

theorem ownerChainAdds_mem_sound (m : Manifest) (w x : String) :
    x ∈ ownerChainAdds m w → AncChainMem (spaceById m.spaces) w x := by
  intro hx
  obtain ⟨pr, hpr, hfst⟩ := List.mem_map.mp hx
  obtain ⟨hrtg, hvalid⟩ := walkUpF_sound (spaceById m.spaces) _ _ w pr hpr
  rw [← hfst]
  exact ⟨hrtg, hvalid⟩

theorem ownerChainAdds_mem_iff (m : Manifest) (w : String)
    (hw : ownerWalkCompleted m w = true) (x : String) :
    x ∈ ownerChainAdds m w ↔ AncChainMem (spaceById m.spaces) w x := by
  constructor
  · exact ownerChainAdds_mem_sound m w x
  · rintro ⟨hrtg, hvalid⟩
    exact walkUpF_complete (spaceById m.spaces) _ _ w hw x hrtg hvalid

theorem final_mem_iff (m : Manifest) (t : String)
    (hw : WalksComplete m t) (x : String) :
    x ∈ filterIncludedFinal m t ↔ FinalSpec m t x := by
  obtain ⟨hwt, hwc, hwp⟩ := hw
  unfold filterIncludedFinal FinalSpec
  refine Iff.trans
    (foldl_ownermatch_mem_iff (policySpaceOf m) (ownerChainAdds m) _ _ x) ?_
  rw [foldl_ownermatch_mem_iff (contextSpaceOf m) (ownerChainAdds m) _ _ x]
  constructor
  · rintro ((hbase | ⟨cid, hcid, w, hwsp, hadds⟩) | ⟨pid, hpid, w, hwsp, hadds⟩)
    · exact Or.inl ((base_mem_iff m t hwt x).mp hbase)
    · exact Or.inr (Or.inl ⟨cid, w, (requiredContextIDs_mem_iff m t hwt cid).mp hcid,
        hwsp, ownerChainAdds_mem_sound m w x hadds⟩)
    · exact Or.inr (Or.inr ⟨pid, w, (requiredPolicyIDs_mem_iff m t hwt pid).mp hpid,
        hwsp, ownerChainAdds_mem_sound m w x hadds⟩)
  · rintro (hbase | ⟨cid, w, href, hwsp, hanc⟩ | ⟨pid, w, href, hwsp, hanc⟩)
    · exact Or.inl (Or.inl ((base_mem_iff m t hwt x).mpr hbase))
    · have hcid := (requiredContextIDs_mem_iff m t hwt cid).mpr href
      have hflag : ownerWalkCompleted m w = true := by
        have := hwc cid hcid
        rw [hwsp] at this
        exact this
      exact Or.inl (Or.inr ⟨cid, hcid, w, hwsp,
        (ownerChainAdds_mem_iff m w hflag x).mpr hanc⟩)
    · have hpid := (requiredPolicyIDs_mem_iff m t hwt pid).mpr href
      have hflag : ownerWalkCompleted m w = true := by
        have := hwp pid hpid
        rw [hwsp] at this
        exact this
      exact Or.inr ⟨pid, hpid, w, hwsp,
        (ownerChainAdds_mem_iff m w hflag x).mpr hanc⟩

/-- C1 amended: for every manifest and non-empty target, the pre-extension
included set is, declaratively, everything reachable downward (child steps)
from the set consisting of the target together with its ancestor chain —
the chain walked through spaces present in the snapshot, exclusive of
"root" — so descendants of ancestors (for example siblings of the target)
are included and "root" is not; the final set additionally contains the
"root"-exclusive ancestor chains, inclusive of the owning space itself, of
the spaces owning contexts/policies attached to pre-extension-included
stacks.  A space appears in the output Spaces array iff its id is in the
final set, and a stack is included iff its owning space id is in the
pre-extension set.  The completion hypothesis states that the Go ancestor
walks terminate on this input. -/
theorem C1_filter_included_amended (m : Manifest) (t : String) (hne : t ≠ "") (hw : WalksComplete m t) :
    (∀ sp, sp ∈ (filterManifestBySpace m t).spaces ↔
      sp ∈ m.spaces ∧ FinalSpec m t sp.id) ∧
    (∀ st, st ∈ (filterManifestBySpace m t).stacks ↔
      st ∈ m.stacks ∧ BaseSpec m t st.space) := by
  constructor
  · intro sp
    have hsp : (filterManifestBySpace m t).spaces =
        m.spaces.filter (fun s => s.id ∈ filterIncludedFinal m t) := by
      rw [filterManifestBySpace, if_neg hne]
    rw [hsp, List.mem_filter]
    simp only [decide_eq_true_eq]
    exact and_congr_right fun _ => final_mem_iff m t hw sp.id
  · intro st
    have hst : (filterManifestBySpace m t).stacks = filterStacksIncluded m t := by
      rw [filterManifestBySpace, if_neg hne]
    rw [hst, filterStacksIncluded, List.mem_filter]
    simp only [decide_eq_true_eq]
    exact and_congr_right fun _ => base_mem_iff m t hw.1 st.space

/-- C1 counterexample: in the hierarchy root → infra → {infra-prod,
infra-dev}, filtering by "infra-prod" yields the Spaces array
[infra, infra-prod, infra-dev]: contrary to the claim, "root" — although on
the ancestor chain — is absent from the output, while "infra-dev", which is
neither the target, nor a descendant or ancestor of it, nor on any
referenced context/policy chain, is included (it is a descendant of the
included ancestor "infra"). -/
theorem C1_filter_included_counterexample :
    ((filterManifestBySpace exampleManifest "infra-prod").spaces.map Space.id =
      ["infra", "infra-prod", "infra-dev"]) ∧
    (¬ ∃ sp ∈ (filterManifestBySpace exampleManifest "infra-prod").spaces,
      sp.id = "root") ∧
    (∃ sp ∈ (filterManifestBySpace exampleManifest "infra-prod").spaces,
      sp.id = "infra-dev") := by
  decide

/-- C1 witness: the amended characterisation instantiated at the concrete
example manifest and target "infra-prod". -/
theorem C1_filter_included_witness :
    (∀ sp, sp ∈ (filterManifestBySpace exampleManifest "infra-prod").spaces ↔
      sp ∈ exampleManifest.spaces ∧ FinalSpec exampleManifest "infra-prod" sp.id) ∧
    (∀ st, st ∈ (filterManifestBySpace exampleManifest "infra-prod").stacks ↔
      st ∈ exampleManifest.stacks ∧ BaseSpec exampleManifest "infra-prod" st.space) :=
  C1_filter_included_amended exampleManifest "infra-prod" (by decide) ⟨by decide, by decide, by decide⟩

theorem base_subset_final (m : Manifest) (t : String) :
    ∀ x ∈ filterIncludedBase m t, x ∈ filterIncludedFinal m t := by
  intro x hx
  unfold filterIncludedFinal
  rw [foldl_ownermatch_mem_iff (policySpaceOf m) (ownerChainAdds m)]
  refine Or.inl ?_
  rw [foldl_ownermatch_mem_iff (contextSpaceOf m) (ownerChainAdds m)]
  exact Or.inl hx

theorem ctxChain_subset_final (m : Manifest) (t : String) :
    ∀ cid ∈ requiredContextIDs m t, ∀ w, contextSpaceOf m cid = some w →
    ∀ x ∈ ownerChainAdds m w, x ∈ filterIncludedFinal m t := by
  intro cid hcid w hw x hx
  unfold filterIncludedFinal
  rw [foldl_ownermatch_mem_iff (policySpaceOf m) (ownerChainAdds m)]
  refine Or.inl ?_
  rw [foldl_ownermatch_mem_iff (contextSpaceOf m) (ownerChainAdds m)]
  exact Or.inr ⟨cid, hcid, w, hw, hx⟩

theorem polChain_subset_final (m : Manifest) (t : String) :
    ∀ pid ∈ requiredPolicyIDs m t, ∀ w, policySpaceOf m pid = some w →
    ∀ x ∈ ownerChainAdds m w, x ∈ filterIncludedFinal m t := by
  intro pid hpid w hw x hx
  unfold filterIncludedFinal
  rw [foldl_ownermatch_mem_iff (policySpaceOf m) (ownerChainAdds m)]
  exact Or.inr ⟨pid, hpid, w, hw, hx⟩

theorem seed_subset_final (m : Manifest) (t : String) :
    ∀ x ∈ filterIncludedSeed m t, x ∈ filterIncludedFinal m t := by
  intro x hx
  exact base_subset_final m t x
    (descFix_superset m.spaces (m.spaces.length + 1) (filterIncludedSeed m t) x hx)

theorem idem_spaces_eq (m : Manifest) (t : String) (hne : t ≠ "") :
    (filterManifestBySpace m t).spaces =
      m.spaces.filter (fun s => s.id ∈ filterIncludedFinal m t) := by
  rw [filterManifestBySpace, if_neg hne]

theorem idem_stacks_eq (m : Manifest) (t : String) (hne : t ≠ "") :
    (filterManifestBySpace m t).stacks = filterStacksIncluded m t := by
  rw [filterManifestBySpace, if_neg hne]

theorem idem_sm_agree (m : Manifest) (t : String) (hne : t ≠ "") :
    ∀ x, x ∈ filterIncludedFinal m t →
    spaceById (filterManifestBySpace m t).spaces x = spaceById m.spaces x := by
  intro x hx
  rw [idem_spaces_eq m t hne]
  unfold spaceById
  refine golookup_filter_key Space.id _ m.spaces x ?_
  intro sp _ hid
  simp only [decide_eq_true_eq]
  rw [hid]
  exact hx

theorem idem_sm_none (m : Manifest) (t : String) (hne : t ≠ "") :
    ∀ x, x ∉ filterIncludedFinal m t →
    spaceById (filterManifestBySpace m t).spaces x = none := by
  intro x hx
  rw [idem_spaces_eq m t hne]
  unfold spaceById
  refine golookup_eq_none Space.id _ x ?_
  intro sp hsp hid
  obtain ⟨_, hpred⟩ := List.mem_filter.mp hsp
  simp only [decide_eq_true_eq] at hpred
  rw [hid] at hpred
  exact hx hpred

theorem idem_count_agree (m : Manifest) (t : String) (hne : t ≠ "") :
    ∀ x, x ∈ filterIncludedFinal m t →
    (m.spaces.map Space.id).count x =
      ((filterManifestBySpace m t).spaces.map Space.id).count x := by
  intro x hx
  rw [idem_spaces_eq m t hne]
  refine (count_map_filter_key _ m.spaces x ?_).symm
  intro sp _ hid
  simp only [decide_eq_true_eq]
  rw [hid]
  exact hx

theorem idem_walk_eq (m : Manifest) (t : String) (hne : t ≠ "") :
    (filterTargetWalk (filterManifestBySpace m t) t).1 = (filterTargetWalk m t).1 := by
  unfold filterTargetWalk
  refine walkUpF_congr (spaceById m.spaces)
    (spaceById (filterManifestBySpace m t).spaces)
    (fun x => x ∈ filterIncludedFinal m t)
    (idem_sm_agree m t hne) (idem_sm_none m t hne)
    _ _ _ _ t rfl rfl (fun x hx => idem_count_agree m t hne x hx) ?_
  intro pr hpr
  refine seed_subset_final m t pr.1 ?_
  unfold filterIncludedSeed
  exact List.mem_cons_of_mem _ (List.mem_map.mpr ⟨pr, hpr, rfl⟩)

theorem idem_seed_eq (m : Manifest) (t : String) (hne : t ≠ "") :
    filterIncludedSeed (filterManifestBySpace m t) t = filterIncludedSeed m t := by
  unfold filterIncludedSeed
  rw [idem_walk_eq m t hne]

theorem idem_anc_eq (m : Manifest) (t : String) (hne : t ≠ "") :
    filterAncestorSpaces (filterManifestBySpace m t) t = filterAncestorSpaces m t := by
  unfold filterAncestorSpaces
  rw [idem_walk_eq m t hne]

theorem idem_base_subset (m : Manifest) (t : String) (hne : t ≠ "") :
    ∀ x ∈ filterIncludedBase m t,
      x ∈ filterIncludedBase (filterManifestBySpace m t) t := by
  intro x hx
  unfold filterIncludedBase at hx ⊢
  rw [descFix_mem_iff] at hx
  rw [descFix_mem_iff, idem_seed_eq m t hne]
  obtain ⟨a, ha, hrtg⟩ := hx
  refine ⟨a, ha, ?_⟩
  induction hrtg with
  | refl => exact Relation.ReflTransGen.refl
  | tail hab hbc ih =>
    obtain ⟨sp, hspm, hspid, hspps⟩ := hbc
    have hcbase : sp.id ∈ filterIncludedBase m t := by
      unfold filterIncludedBase
      rw [descFix_mem_iff]
      exact ⟨a, ha, hspid ▸ hab.tail ⟨sp, hspm, hspid, hspps⟩⟩
    have hspF : sp ∈ (filterManifestBySpace m t).spaces := by
      rw [idem_spaces_eq m t hne]
      refine List.mem_filter.mpr ⟨hspm, ?_⟩
      simp only [decide_eq_true_eq]
      exact base_subset_final m t sp.id hcbase
    exact ih.tail ⟨sp, hspF, hspid, hspps⟩

theorem idem_stacks_fix (m : Manifest) (t : String) (hne : t ≠ "") :
    filterStacksIncluded (filterManifestBySpace m t) t =
      (filterManifestBySpace m t).stacks := by
  unfold filterStacksIncluded
  rw [List.filter_eq_self]
  intro st hst
  rw [idem_stacks_eq m t hne] at hst
  obtain ⟨_, hpred⟩ := List.mem_filter.mp hst
  simp only [decide_eq_true_eq] at hpred ⊢
  exact idem_base_subset m t hne st.space hpred

theorem idem_reqCtx_eq (m : Manifest) (t : String) (hne : t ≠ "") :
    requiredContextIDs (filterManifestBySpace m t) t = requiredContextIDs m t := by
  unfold requiredContextIDs
  rw [idem_stacks_fix m t hne, idem_stacks_eq m t hne]

theorem idem_reqPol_eq (m : Manifest) (t : String) (hne : t ≠ "") :
    requiredPolicyIDs (filterManifestBySpace m t) t = requiredPolicyIDs m t := by
  unfold requiredPolicyIDs
  rw [idem_stacks_fix m t hne, idem_stacks_eq m t hne]

theorem idem_ctxlookup_eq (m : Manifest) (t : String) (hne : t ≠ "") :
    ∀ r ∈ requiredContextIDs m t,
      contextSpaceOf (filterManifestBySpace m t) r = contextSpaceOf m r := by
  intro r hr
  unfold contextSpaceOf
  have hc : (filterManifestBySpace m t).contexts =
      m.contexts.filter (fun c =>
        decide (c.space ∈ filterIncludedFinal m t ∨ c.id ∈ requiredContextIDs m t)) := by
    rw [filterManifestBySpace, if_neg hne]
  have hkey : ∀ c ∈ m.contexts, c.id = r →
      (decide (c.space ∈ filterIncludedFinal m t ∨ c.id ∈ requiredContextIDs m t)) = true := by
    intro c _ hid
    simp only [decide_eq_true_eq]
    rw [hid]
    exact Or.inr hr
  rw [hc, golookup_filter_key Context.id _ m.contexts r hkey]

theorem idem_pollookup_eq (m : Manifest) (t : String) (hne : t ≠ "") :
    ∀ r ∈ requiredPolicyIDs m t,
      policySpaceOf (filterManifestBySpace m t) r = policySpaceOf m r := by
  intro r hr
  unfold policySpaceOf
  have hc : (filterManifestBySpace m t).policies =
      m.policies.filter (fun p =>
        decide (p.space ∈ filterIncludedFinal m t ∨ p.id ∈ requiredPolicyIDs m t)) := by
    rw [filterManifestBySpace, if_neg hne]
  have hkey : ∀ p ∈ m.policies, p.id = r →
      (decide (p.space ∈ filterIncludedFinal m t ∨ p.id ∈ requiredPolicyIDs m t)) = true := by
    intro p _ hid
    simp only [decide_eq_true_eq]
    rw [hid]
    exact Or.inr hr
  rw [hc, golookup_filter_key Policy.id _ m.policies r hkey]

theorem idem_ownerchain_eq (m : Manifest) (t : String) (hne : t ≠ "") (w : String)
    (hsub : ∀ x ∈ ownerChainAdds m w, x ∈ filterIncludedFinal m t) :
    ownerChainAdds (filterManifestBySpace m t) w = ownerChainAdds m w := by
  unfold ownerChainAdds
  exact congrArg (List.map Prod.fst)
    (walkUpF_congr (spaceById m.spaces)
      (spaceById (filterManifestBySpace m t).spaces)
      (fun x => x ∈ filterIncludedFinal m t)
      (idem_sm_agree m t hne) (idem_sm_none m t hne)
      _ _ _ _ w rfl rfl (fun x hx => idem_count_agree m t hne x hx)
      (fun pr hpr => hsub pr.1 (List.mem_map.mpr ⟨pr, hpr, rfl⟩)))

theorem idem_final_subset (m : Manifest) (t : String) (hne : t ≠ "") :
    ∀ x ∈ filterIncludedFinal m t,
      x ∈ filterIncludedFinal (filterManifestBySpace m t) t := by
  intro x hx
  have hx2 := hx
  unfold filterIncludedFinal at hx2 ⊢
  rw [foldl_ownermatch_mem_iff (policySpaceOf m) (ownerChainAdds m)] at hx2
  rw [foldl_ownermatch_mem_iff (contextSpaceOf m) (ownerChainAdds m)] at hx2
  rw [foldl_ownermatch_mem_iff (policySpaceOf (filterManifestBySpace m t))
    (ownerChainAdds (filterManifestBySpace m t))]
  rw [foldl_ownermatch_mem_iff (contextSpaceOf (filterManifestBySpace m t))
    (ownerChainAdds (filterManifestBySpace m t))]
  rw [idem_reqCtx_eq m t hne, idem_reqPol_eq m t hne]
  rcases hx2 with (hbase | ⟨cid, hcid, w, hw, hadds⟩) | ⟨pid, hpid, w, hw, hadds⟩
  · exact Or.inl (Or.inl (idem_base_subset m t hne x hbase))
  · refine Or.inl (Or.inr ⟨cid, hcid, w, ?_, ?_⟩)
    · rw [idem_ctxlookup_eq m t hne cid hcid]
      exact hw
    · rw [idem_ownerchain_eq m t hne w (ctxChain_subset_final m t cid hcid w hw)]
      exact hadds
  · refine Or.inr ⟨pid, hpid, w, ?_, ?_⟩
    · rw [idem_pollookup_eq m t hne pid hpid]
      exact hw
    · rw [idem_ownerchain_eq m t hne w (polChain_subset_final m t pid hpid w hw)]
      exact hadds

theorem manifest_eq_of_fields (a b : Manifest)
    (h1 : a.sourceURL = b.sourceURL) (h2 : a.spaces = b.spaces)
    (h3 : a.stacks = b.stacks) (h4 : a.contexts = b.contexts)
    (h5 : a.policies = b.policies) (h6 : a.awsIntegrations = b.awsIntegrations)
    (h7 : a.azureIntegrations = b.azureIntegrations) : a = b := by
  cases a
  cases b
  simp only at h1 h2 h3 h4 h5 h6 h7
  subst h1 h2 h3 h4 h5 h6 h7
  rfl

theorem idem_sourceURL_eq (m : Manifest) (t : String) (hne : t ≠ "") :
    (filterManifestBySpace m t).sourceURL = m.sourceURL := by
  rw [filterManifestBySpace, if_neg hne]

theorem idem_contexts_eq (m : Manifest) (t : String) (hne : t ≠ "") :
    (filterManifestBySpace m t).contexts =
      m.contexts.filter (fun c =>
        decide (c.space ∈ filterIncludedFinal m t ∨
          c.id ∈ requiredContextIDs m t)) := by
  rw [filterManifestBySpace, if_neg hne]

theorem idem_policies_eq (m : Manifest) (t : String) (hne : t ≠ "") :
    (filterManifestBySpace m t).policies =
      m.policies.filter (fun p =>
        decide (p.space ∈ filterIncludedFinal m t ∨
          p.id ∈ requiredPolicyIDs m t)) := by
  rw [filterManifestBySpace, if_neg hne]

theorem idem_aws_eq (m : Manifest) (t : String) (hne : t ≠ "") :
    (filterManifestBySpace m t).awsIntegrations =
      m.awsIntegrations.filter (fun i =>
        decide (i.space ∈ filterIncludedFinal m t ∨
          i.space ∈ filterAncestorSpaces m t)) := by
  rw [filterManifestBySpace, if_neg hne]

theorem idem_azure_eq (m : Manifest) (t : String) (hne : t ≠ "") :
    (filterManifestBySpace m t).azureIntegrations =
      m.azureIntegrations.filter (fun i =>
        decide (i.space ∈ filterIncludedFinal m t ∨
          i.space ∈ filterAncestorSpaces m t)) := by
  rw [filterManifestBySpace, if_neg hne]

/-- C9: the space-scoped filter is idempotent — filtering an
already-filtered manifest by the same target yields the same manifest, for
every manifest and every target (including the empty target, for which the
filter is the identity). -/
theorem C9_filter_idempotent (m : Manifest) (t : String) :
    filterManifestBySpace (filterManifestBySpace m t) t = filterManifestBySpace m t := by
  by_cases hne : t = ""
  · subst hne
    rw [filterManifestBySpace, if_pos rfl, filterManifestBySpace, if_pos rfl]
  · refine manifest_eq_of_fields _ _ ?_ ?_ ?_ ?_ ?_ ?_ ?_
    · rw [idem_sourceURL_eq (filterManifestBySpace m t) t hne]
    · rw [idem_spaces_eq (filterManifestBySpace m t) t hne, List.filter_eq_self]
      intro sp hsp
      have hsp2 := hsp
      rw [idem_spaces_eq m t hne] at hsp2
      obtain ⟨_, hpred⟩ := List.mem_filter.mp hsp2
      simp only [decide_eq_true_eq] at hpred ⊢
      exact idem_final_subset m t hne sp.id hpred
    · rw [idem_stacks_eq (filterManifestBySpace m t) t hne]
      exact idem_stacks_fix m t hne
    · rw [idem_contexts_eq (filterManifestBySpace m t) t hne, List.filter_eq_self]
      intro c hc
      have hc2 := hc
      rw [idem_contexts_eq m t hne] at hc2
      obtain ⟨_, hpred⟩ := List.mem_filter.mp hc2
      simp only [decide_eq_true_eq] at hpred ⊢
      rw [idem_reqCtx_eq m t hne]
      rcases hpred with hsp | hid
      · exact Or.inl (idem_final_subset m t hne c.space hsp)
      · exact Or.inr hid
    · rw [idem_policies_eq (filterManifestBySpace m t) t hne, List.filter_eq_self]
      intro p hp
      have hp2 := hp
      rw [idem_policies_eq m t hne] at hp2
      obtain ⟨_, hpred⟩ := List.mem_filter.mp hp2
      simp only [decide_eq_true_eq] at hpred ⊢
      rw [idem_reqPol_eq m t hne]
      rcases hpred with hsp | hid
      · exact Or.inl (idem_final_subset m t hne p.space hsp)
      · exact Or.inr hid
    · rw [idem_aws_eq (filterManifestBySpace m t) t hne, List.filter_eq_self]
      intro i hi
      have hi2 := hi
      rw [idem_aws_eq m t hne] at hi2
      obtain ⟨_, hpred⟩ := List.mem_filter.mp hi2
      simp only [decide_eq_true_eq] at hpred ⊢
      rw [idem_anc_eq m t hne]
      rcases hpred with hsp | hanc
      · exact Or.inl (idem_final_subset m t hne i.space hsp)
      · exact Or.inr hanc
    · rw [idem_azure_eq (filterManifestBySpace m t) t hne, List.filter_eq_self]
      intro i hi
      have hi2 := hi
      rw [idem_azure_eq m t hne] at hi2
      obtain ⟨_, hpred⟩ := List.mem_filter.mp hi2
      simp only [decide_eq_true_eq] at hpred ⊢
      rw [idem_anc_eq m t hne]
      rcases hpred with hsp | hanc
      · exact Or.inl (idem_final_subset m t hne i.space hsp)
      · exact Or.inr hanc

end SpaceBridge

